import Mathlib

/-!
# tinyserializer: a shallow embedding of `serializer.go`

The Go package walks a value through `reflect` and writes a tag-free binary
stream into a `bytes.Buffer`; decoding walks the *target* and reads the stream
back.  This file embeds the reflective walk as Lean functions over an explicit
universe of Go types (`Ty`) and Go values (`Value`).

Conventions of the embedding

* A byte is a `Nat`; every byte the code computes is reduced `% 256`.
* `uint16`, `uint32`, `uint64` arithmetic is `Nat` arithmetic with an explicit
  `%` by the modulus of the width.
* A Go call has three possible outcomes: it panics, it returns a non-nil
  `error`, or it returns `nil`.  `Run σ` records which, together with the
  state `σ` (buffer, target) that is left behind when the call returns.
* The platform is a 64-bit one: the kinds `Int` and `Uint` are `Width.w64`
  (the repository's own test encodes `map[int]...`, which needs that).
* Kinds covered: Bool, Int*, Uint*, Float64, String, Slice, Map, Ptr, Struct,
  and `other` for Uintptr, Func, Interface and UnsafePointer.  Float32,
  Complex64, Complex128, Array and Chan are outside the embedded fragment.
* A float64 is carried as its 64-bit pattern.  `reflect.Value.IsZero` is the
  one of Go 1.22 and later, for which `-0.0` is zero as `+0.0` is.
* Pointers are trees: a non-nil pointer is its pointee, sharing and cycles are
  not represented.
-/

namespace TinySerializer

/-! ## Go types and values -/

/-- Native widths of the integer kinds. -/
inductive Width where
  | w8
  | w16
  | w32
  | w64
  deriving DecidableEq, Repr

/-- Result of `reflect.Type.Size()` for an integer of the given width, in bytes. -/
def Width.size : Width → Nat
  | .w8 => 1
  | .w16 => 2
  | .w32 => 4
  | .w64 => 8

/-- Number of bits of the width. -/
def Width.bits (w : Width) : Nat := 8 * w.size

/-- The part of `reflect.StructField` the serializer looks at: `Tag` is the
result of `Tag.Get("tiny")`, `PkgPath` is empty exactly for exported fields. -/
structure StructField where
  Name : String
  Tag : String
  PkgPath : String
  deriving DecidableEq, Repr

/-- Go types (`reflect.Type`), as far as the serializer distinguishes them. -/
inductive Ty where
  | bool
  | int (w : Width)
  | uint (w : Width)
  | float64
  | string
  | slice (elem : Ty)
  | map (key : Ty) (elem : Ty)
  | ptr (elem : Ty)
  | struct (fields : List (StructField × Ty))
  | other
  deriving Repr

/-- Go values (`reflect.Value`).  A value carries what `reflect` can recover
from it: the element type of a slice, map or nil pointer, the field
descriptors of a struct.  `isNil` separates a nil slice or map from an
allocated one. -/
inductive Value where
  | bool (b : Bool)
  | int (w : Width) (v : Int)
  | uint (w : Width) (v : Nat)
  | float64 (bits : Nat)
  | string (bytes : List Nat)
  | slice (elem : Ty) (isNil : Bool) (elems : List Value)
  | map (key : Ty) (elem : Ty) (isNil : Bool) (entries : List (Value × Value))
  | nilPtr (elem : Ty)
  | ptr (pointee : Value)
  | struct (fields : List (StructField × Value))
  | other (isZero : Bool)
  deriving Repr

/-- Errors the package returns.  `errorf` is `fmt.Errorf` with the fixed part of its text,
`wrapped` is `fmt.Errorf(text + err.Error())`, the last two are the errors of
`io.ReadFull`. -/
inductive GoError where
  | errorf (text : String)
  | wrapped (text : String) (cause : GoError)
  | EOF
  | ErrUnexpectedEOF
  deriving DecidableEq, Repr

/-- Outcome of a Go call: a panic, or a return with the state left behind and
the returned `error` (`none` is `nil`). -/
inductive Run (σ : Type) where
  | panic : Run σ
  | ret (st : σ) (err : Option GoError) : Run σ
  deriving DecidableEq, Repr

/-- Contents of a `bytes.Buffer`: the bytes written so far when encoding, the
unread bytes when decoding. -/
abbrev Buf := List Nat

mutual
/-- Embedding of `reflect.Zero(t)`: the zero value of a type. -/
def zero : Ty → Value
  | .bool => .bool false
  | .int w => .int w 0
  | .uint w => .uint w 0
  | .float64 => .float64 0
  | .string => .string []
  | .slice e => .slice e true []
  | .map k e => .map k e true []
  | .ptr e => .nilPtr e
  | .struct fs => .struct (zeroFields fs)
  | .other => .other true
/-- Zero values of the fields of a struct type. -/
def zeroFields : List (StructField × Ty) → List (StructField × Value)
  | [] => []
  | (f, t) :: rest => (f, zero t) :: zeroFields rest
end

mutual
/-- Embedding of `reflect.Value.IsZero`.  A float is zero when it compares
equal to 0 (`v.Float() == 0`, the rule since Go 1.22): the bit patterns of
`+0.0` and of `-0.0`, which differ in the sign bit only. -/
def IsZero : Value → Bool
  | .bool b => !b
  | .int _ v => v == 0
  | .uint _ v => v == 0
  | .float64 bits => bits % 9223372036854775808 == 0
  | .string s => s.length == 0
  | .slice _ isNil _ => isNil
  | .map _ _ isNil _ => isNil
  | .nilPtr _ => true
  | .ptr _ => false
  | .struct fs => IsZeroFields fs
  | .other z => z
/-- Every field of a struct is zero. -/
def IsZeroFields : List (StructField × Value) → Bool
  | [] => true
  | (_, v) :: rest => IsZero v && IsZeroFields rest
end

mutual
/-- Embedding of `reflect.Value.Type()`. -/
def typeOf : Value → Ty
  | .bool _ => .bool
  | .int w _ => .int w
  | .uint w _ => .uint w
  | .float64 _ => .float64
  | .string _ => .string
  | .slice e _ _ => .slice e
  | .map k e _ _ => .map k e
  | .nilPtr e => .ptr e
  | .ptr v => .ptr (typeOf v)
  | .struct fs => .struct (typeOfFields fs)
  | .other _ => .other
/-- Field types of a struct value. -/
def typeOfFields : List (StructField × Value) → List (StructField × Ty)
  | [] => []
  | (f, v) :: rest => (f, typeOf v) :: typeOfFields rest
end

/-! ## `encoding/binary` and `bytes.Buffer` -/

/-- The 2 bytes `binary.LittleEndian.PutUint16` stores for `v`. -/
def le16 (v : Nat) : List Nat := [v % 256, v / 256 % 256]

/-- The 4 bytes `binary.Write(_, binary.LittleEndian, uint32)` writes. -/
def le32 (v : Nat) : List Nat :=
  [v % 256, v / 256 % 256, v / 65536 % 256, v / 16777216 % 256]

/-- The 8 bytes `binary.LittleEndian.PutUint64` stores for `v`. -/
def le64 (v : Nat) : List Nat :=
  [v % 256, v / 256 % 256, v / 65536 % 256, v / 16777216 % 256,
   v / 4294967296 % 256, v / 1099511627776 % 256, v / 281474976710656 % 256,
   v / 72057594037927936 % 256]

/-- Embedding of `binary.LittleEndian.PutUint16(b, v)`: panics (`none`) when `b` is shorter
than 2 bytes, else overwrites the first 2 bytes. -/
def PutUint16 (b : List Nat) (v : Nat) : Option (List Nat) :=
  if b.length < 2 then none else some (le16 v ++ b.drop 2)

/-- Embedding of `binary.LittleEndian.PutUint64(b, v)`: panics (`none`) when `b` is shorter
than 8 bytes, else overwrites the first 8 bytes. -/
def PutUint64 (b : List Nat) (v : Nat) : Option (List Nat) :=
  if b.length < 8 then none else some (le64 v ++ b.drop 8)

/-- The builtin `copy(dst, src)`: the first `min (len dst) (len src)` bytes of
`dst` are replaced. -/
def copy (dst src : List Nat) : List Nat :=
  src.take dst.length ++ dst.drop src.length

/-- Embedding of `binary.LittleEndian.Uint16(b)` on a slice of at least 2 bytes. -/
def Uint16 : List Nat → Option Nat
  | b0 :: b1 :: _ => some (b0 % 256 + b1 % 256 * 256)
  | _ => none

/-- Embedding of `binary.LittleEndian.Uint32(b)` on a slice of at least 4 bytes. -/
def Uint32 : List Nat → Option Nat
  | b0 :: b1 :: b2 :: b3 :: _ =>
    some (b0 % 256 + b1 % 256 * 256 + b2 % 256 * 65536 + b3 % 256 * 16777216)
  | _ => none

/-- Embedding of `binary.LittleEndian.Uint64(b)`: panics (`none`) when `b` is shorter than
8 bytes. -/
def Uint64 : List Nat → Option Nat
  | b0 :: b1 :: b2 :: b3 :: b4 :: b5 :: b6 :: b7 :: _ =>
    some (b0 % 256 + b1 % 256 * 256 + b2 % 256 * 65536 + b3 % 256 * 16777216
      + b4 % 256 * 4294967296 + b5 % 256 * 1099511627776
      + b6 % 256 * 281474976710656 + b7 % 256 * 72057594037927936)
  | _ => none

/-- The conversion `uint64(x)` of an `int64`. -/
def toUint64 (x : Int) : Nat := (x % 18446744073709551616).toNat

/-- The conversion `int64(u)` of a `uint64`. -/
def toInt64 (u : Nat) : Int :=
  if u % 18446744073709551616 < 9223372036854775808 then
    ((u % 18446744073709551616 : Nat) : Int)
  else ((u % 18446744073709551616 : Nat) : Int) - 18446744073709551616

/-- What `reflect.Value.SetInt(x)` stores in an integer of width `w`: `x`
truncated to the width. -/
def truncInt (w : Width) (x : Int) : Int :=
  let m := x % (2 ^ w.bits : Int)
  if m < (2 ^ (w.bits - 1) : Int) then m else m - (2 ^ w.bits : Int)

/-- What `reflect.Value.SetUint(x)` stores in an unsigned integer of width `w`. -/
def truncUint (w : Width) (x : Nat) : Nat := x % 2 ^ w.bits

/-- Embedding of `io.ReadFull` of `n` bytes from a `bytes.Buffer` holding `buf` (what
`binary.Read` does for a fixed-size datum): the bytes read and the rest, or the
error; a short read drains the buffer. -/
def readFull (buf : Buf) (n : Nat) : Except GoError (List Nat) × Buf :=
  if n ≤ buf.length then (.ok (buf.take n), buf.drop n)
  else if buf.length = 0 then (.error .EOF, [])
  else (.error .ErrUnexpectedEOF, [])

/-! ## Encoding -/

/-- Embedding of `GetBytes`: frame a leaf payload.  `size` is `uint16(len(ndata))`, the
frame is allocated with `2+size` bytes in `uint16` arithmetic, `PutUint16`
panics on a frame shorter than 2 bytes, `copy` fills what fits.  The returned
error is always `nil`. -/
def GetBytes (ndata : List Nat) : Run (List Nat) :=
  let size := ndata.length % 65536
  let b := List.replicate ((2 + size) % 65536) 0
  match PutUint16 b size with
  | none => .panic
  | some b => .ret (b.take 2 ++ copy (b.drop 2) ndata) none

/-- The tail of `serializeField` after the kind switch: frame `ndata` with
`GetBytes` and append the frame to the buffer (`bytes.Buffer.Write` never
fails). -/
def writeLeaf (ndata : List Nat) (buf : Buf) : Run Buf :=
  match GetBytes ndata with
  | .panic => .panic
  | .ret _ (some err) => .ret buf (some err)
  | .ret data none => .ret (buf ++ data) none

/-- The payload of an integer leaf: `make([]byte, usize)` followed by
`PutUint64`, which panics when `usize < 8`. -/
def intPayload (w : Width) (v : Nat) : Option (List Nat) :=
  PutUint64 (List.replicate w.size 0) v

mutual
/-- Embedding of `serializeField`.  The struct case is `s.serialize(field.Interface())`,
whose kind check passes for a struct and which then runs `WriteStruct`; the
slice and map cases are the corresponding branches of `WriteField`, written
in place (see `serialize_struct` and `WriteField` below). -/
def serializeField : Value → Buf → Run Buf
  | .struct fs, buf => WriteStruct fs buf
  | .string s, buf => writeLeaf s buf
  | .bool b, buf => writeLeaf [if b then 1 else 0] buf
  | .int w v, buf =>
    match intPayload w (toUint64 v) with
    | none => .panic
    | some ndata => writeLeaf ndata buf
  | .uint w v, buf =>
    match intPayload w (v % 18446744073709551616) with
    | none => .panic
    | some ndata => writeLeaf ndata buf
  | .float64 bits, buf =>
    match PutUint64 (List.replicate 8 0) (bits % 18446744073709551616) with
    | none => .panic
    | some ndata => writeLeaf ndata buf
  | .slice _ _ elems, buf =>
    serializeElems elems (buf ++ le32 (elems.length % 4294967296))
  | .map _ _ _ entries, buf =>
    serializeMapFields entries (buf ++ le32 (entries.length % 4294967296))
  | .ptr v, buf => serializeField v buf
  | .nilPtr _, _ => .panic
  | .other _, _ => .panic
/-- The element loop of the slice branch of `WriteField`: stops at the first
error. -/
def serializeElems : List Value → Buf → Run Buf
  | [], buf => .ret buf none
  | v :: rest, buf =>
    match serializeField v buf with
    | .panic => .panic
    | .ret buf1 (some err) => .ret buf1 (some err)
    | .ret buf1 none => serializeElems rest buf1
/-- Embedding of `serializeMapFields`: key then value of every entry, in enumeration
order. -/
def serializeMapFields : List (Value × Value) → Buf → Run Buf
  | [], buf => .ret buf none
  | (k, v) :: rest, buf =>
    match serializeField k buf with
    | .panic => .panic
    | .ret buf1 (some err) =>
      .ret buf1 (some (.wrapped "failed to serialize field: " err))
    | .ret buf1 none =>
      match serializeField v buf1 with
      | .panic => .panic
      | .ret buf2 (some err) =>
        .ret buf2 (some (.wrapped "failed to serialize field: " err))
      | .ret buf2 none => serializeMapFields rest buf2
/-- Embedding of `WriteStruct`: the field loop.  The result of `WriteField` is dropped, the
loop goes on with whatever the buffer holds, and `nil` is returned. -/
def WriteStruct : List (StructField × Value) → Buf → Run Buf
  | [], buf => .ret buf none
  | (f, v) :: rest, buf =>
    if f.Tag = "" then WriteStruct rest buf
    else if f.Tag = "-" then WriteStruct rest buf
    else if f.Tag = "omitempty" ∧ IsZero v = true then WriteStruct rest buf
    else if f.PkgPath ≠ "" then WriteStruct rest buf
    else
      match serializeField v buf with
      | .panic => .panic
      | .ret buf1 _ => WriteStruct rest buf1
end

/-- Embedding of `WriteField`: a slice writes its `uint32` length and its elements, a map
its `uint32` length and its entries, anything else goes to `serializeField`.
`kind` is always the kind of `field` at the call sites and is not a
parameter here. -/
def WriteField (field : Value) (buf : Buf) : Run Buf :=
  match field with
  | .slice _ _ elems =>
    serializeElems elems (buf ++ le32 (elems.length % 4294967296))
  | .map _ _ _ entries =>
    serializeMapFields entries (buf ++ le32 (entries.length % 4294967296))
  | v => serializeField v buf

/-- The loop of the slice branch of `serialize`: `WriteField` on every
element, stopping at the first error. -/
def writeFieldLoop : List Value → Buf → Run Buf
  | [], buf => .ret buf none
  | v :: rest, buf =>
    match WriteField v buf with
    | .panic => .panic
    | .ret buf1 (some err) => .ret buf1 (some err)
    | .ret buf1 none => writeFieldLoop rest buf1

/-- The part of `serialize` after `GetValue`.  A struct runs `WriteStruct`.
A slice is replaced by its element 0 (`Index(0)` panics on an empty slice),
and the loop runs over `Len()` and `Index(i)` of that element: `Len` panics
unless the element is a slice, map or string, `Index` panics on a map, and
indexing a string gives `uint8` values.  A map runs `serializeMapFields`
without a count.  Every other kind falls through to `return nil`. -/
def serializeResolved (value : Value) (buf : Buf) : Run Buf :=
  match value with
  | .struct fs => WriteStruct fs buf
  | .slice _ _ [] => .panic
  | .slice _ _ (.slice _ _ inner :: _) => writeFieldLoop inner buf
  | .slice _ _ (.string s :: _) =>
    writeFieldLoop (s.map (fun b => Value.uint .w8 b)) buf
  | .slice _ _ (.map _ _ _ [] :: _) => .ret buf none
  | .slice _ _ (.map _ _ _ (_ :: _) :: _) => .panic
  | .slice _ _ (_ :: _) => .panic
  | .map _ _ _ entries => serializeMapFields entries buf
  | _ => .ret buf none

/-- Embedding of `serialize`: the kind check on the argument itself, then `GetValue`
(which follows one pointer), then the walk.  For a nil pointer `GetValue`
gives the invalid value and `value.Type()` panics. -/
def serialize (data : Value) (buf : Buf) : Run Buf :=
  match data with
  | .ptr v => serializeResolved v buf
  | .nilPtr _ => .panic
  | .struct fs => serializeResolved (.struct fs) buf
  | .slice e n elems => serializeResolved (.slice e n elems) buf
  | .map k e n entries => serializeResolved (.map k e n entries) buf
  | _ => .ret buf (some (.errorf "data must be a pointer, struct, map or slice"))

/-- The external byte transform (`compress/gzip`) behind `Compress` and
`Decompress`, taken as a parameter. -/
structure Transform where
  Compress : List Nat → Except GoError (List Nat)
  Decompress : List Nat → Except GoError (List Nat)

/-- Embedding of `Serializer.Serialize`: reset the buffer, walk, optionally compress.  The
state returned is the byte slice handed to the caller (`nil` on error). -/
def Serialize (z : Transform) (compress : Bool) (data : Value) : Run (List Nat) :=
  match serialize data [] with
  | .panic => .panic
  | .ret _ (some err) => .ret [] (some err)
  | .ret buf none =>
    if compress then
      match z.Compress buf with
      | .ok out => .ret out none
      | .error err => .ret [] (some err)
    else .ret buf none

/-! ## Decoding -/

/-- Embedding of `CheckTag`. -/
def CheckTag (f : StructField) (field : Value) : Bool :=
  if f.Tag = "-" then false
  else if f.Tag = "omitempty" ∧ IsZero field = true then false
  else if f.Tag ≠ "" then true
  else false

/-- The two `binary.Read` calls of `deserializeField`: the `uint16` size, then
`size` bytes. -/
def readLeaf (buf : Buf) : Except GoError (List Nat) × Buf :=
  match readFull buf 2 with
  | (.error err, b) => (.error (.wrapped "failed to read field size: " err), b)
  | (.ok sz, b) =>
    match readFull b ((Uint16 sz).getD 0) with
    | (.error err, b1) => (.error (.wrapped "failed to read field data: " err), b1)
    | (.ok data, b1) => (.ok data, b1)

/-- The final kind switch of `deserializeField` for the leaf kinds: the value
stored in the field, or `none` for a panic (`data[0]` on an empty payload,
`Uint64` on fewer than 8 bytes, `SetBytes` on a kind that is not a slice). -/
def setLeaf (t : Ty) (data : List Nat) : Option Value :=
  match t with
  | .string => some (.string data)
  | .bool =>
    match data with
    | [] => none
    | b0 :: _ => some (.bool (b0 == 1))
  | .int w =>
    match Uint64 data with
    | none => none
    | some u => some (.int w (truncInt w (toInt64 u)))
  | .uint w =>
    match Uint64 data with
    | none => none
    | some u => some (.uint w (truncUint w u))
  | .float64 =>
    match Uint64 data with
    | none => none
    | some u => some (.float64 u)
  | _ => none

/-- The leaf part of `deserializeField` (after the switch on struct, pointer,
slice and map): read the frame, then store the payload in the field.  A read
error leaves the field as it was. -/
def decodeLeaf (t : Ty) (cur : Value) (buf : Buf) : Run (Value × Buf) :=
  match readLeaf buf with
  | (.error err, buf1) => .ret (cur, buf1) (some err)
  | (.ok data, buf1) =>
    match setLeaf t data with
    | none => .panic
    | some v => .ret (v, buf1) none

/-- Is the 64-bit pattern a NaN. -/
def isNaN (x : Nat) : Bool :=
  x / 4503599627370496 % 2048 == 2047 && x % 4503599627370496 != 0

/-- Go `==` on two float64 values given by their bit patterns. -/
def floatEq (a b : Nat) : Bool :=
  !isNaN a && !isNaN b &&
    (a == b || (a % 9223372036854775808 == 0 && b % 9223372036854775808 == 0))

mutual
/-- Go `==` on map keys.  Two non-nil pointers are never the same key: the
decoder only inserts keys it has just allocated. -/
def keyEq : Value → Value → Bool
  | .bool a, .bool b => a == b
  | .int _ a, .int _ b => a == b
  | .uint _ a, .uint _ b => a == b
  | .float64 a, .float64 b => floatEq a b
  | .string a, .string b => a == b
  | .nilPtr _, .nilPtr _ => true
  | .struct fs, .struct gs => keyEqFields fs gs
  | _, _ => false
/-- Field by field `==` of two struct keys. -/
def keyEqFields : List (StructField × Value) → List (StructField × Value) → Bool
  | [], [] => true
  | (_, v) :: fs, (_, w) :: gs => keyEq v w && keyEqFields fs gs
  | _, _ => false
end

/-- Embedding of `reflect.Value.SetMapIndex(key, value)` on the entries of a map: an equal
key keeps its place and gets the new value, a new key is added.  The stored
key is overwritten with the inserted one, as the runtime does for the key
types in which two equal keys can differ (`+0.0` and `-0.0`); for the other
key types the two are the same value. -/
def mapInsert : List (Value × Value) → Value → Value → List (Value × Value)
  | [], k, v => [(k, v)]
  | (k0, v0) :: rest, k, v =>
    if keyEq k0 k then (k, v) :: rest else (k0, v0) :: mapInsert rest k v

/-- The element loop of `deserializeSlice` over the `n` zero elements of the
slice just made: `dec` decodes one element from its zero value `z`.  At an
error the elements not yet reached keep the zero value. -/
def decodeElems (dec : Value → Buf → Run (Value × Buf)) (z : Value) :
    Nat → Buf → Run (List Value × Buf)
  | 0, buf => .ret ([], buf) none
  | n + 1, buf =>
    match dec z buf with
    | .panic => .panic
    | .ret (v, buf1) (some err) =>
      .ret (v :: List.replicate n z, buf1)
        (some (.wrapped "failed to deserialize slice element: " err))
    | .ret (v, buf1) none =>
      match decodeElems dec z n buf1 with
      | .panic => .panic
      | .ret (vs, buf2) err => .ret (v :: vs, buf2) err

/-- The pair loop of `deserializeMap`: `deck` and `decv` decode a key and a
value into fresh zero values `zk` and `zv`; the pair is inserted only when
both succeed. -/
def decodePairs (deck decv : Value → Buf → Run (Value × Buf)) (zk zv : Value) :
    Nat → List (Value × Value) → Buf → Run (List (Value × Value) × Buf)
  | 0, m, buf => .ret (m, buf) none
  | n + 1, m, buf =>
    match deck zk buf with
    | .panic => .panic
    | .ret (_, buf1) (some err) =>
      .ret (m, buf1) (some (.wrapped "failed to deserialize map key: " err))
    | .ret (k, buf1) none =>
      match decv zv buf1 with
      | .panic => .panic
      | .ret (_, buf2) (some err) =>
        .ret (m, buf2) (some (.wrapped "failed to deserialize map value: " err))
      | .ret (v, buf2) none => decodePairs deck decv zk zv n (mapInsert m k v) buf2

/-- The fields `deserialize` handles with `deserializeSlice` or
`deserializeMap`, whose returned error it drops. -/
def isSliceOrMap : Ty → Bool
  | .slice _ => true
  | .map _ _ => true
  | _ => false

/-- The error of `deserialize` for a pointer that does not lead to a struct.
The code appends the kind it found to the text (`... is not a struct [int64]`,
and likewise `data is not a pointer int64`); the embedding carries the fixed
part of the text only. -/
def errNotStruct : GoError := .errorf "deserialization error; data is not a struct"

mutual
/-- Embedding of `deserializeField` on a field of static type `t` currently holding `cur`.
The struct and pointer cases are the calls of `deserialize` on the address of
the field and on the (allocated if nil) pointer; the slice and map cases are
`deserializeSlice` and `deserializeMap`; the remaining kinds read a leaf.  A
`cur` that is not of type `t` cannot come from `reflect` and is a panic. -/
def deserializeField : Ty → Value → Buf → Run (Value × Buf)
  | .struct fs, cur, buf =>
    match cur with
    | .struct cfs =>
      match deserializeFields fs cfs buf with
      | .panic => .panic
      | .ret (cfs1, buf1) err => .ret (.struct cfs1, buf1) err
    | _ => .panic
  | .ptr (.struct fs), cur, buf =>
    match cur with
    | .ptr (.struct cfs) =>
      match deserializeFields fs cfs buf with
      | .panic => .panic
      | .ret (cfs1, buf1) err => .ret (.ptr (.struct cfs1), buf1) err
    | .nilPtr _ =>
      match deserializeFields fs (zeroFields fs) buf with
      | .panic => .panic
      | .ret (cfs1, buf1) err => .ret (.ptr (.struct cfs1), buf1) err
    | _ => .panic
  | .ptr e, cur, buf =>
    match cur with
    | .ptr v => .ret (.ptr v, buf) (some errNotStruct)
    | .nilPtr _ => .ret (.ptr (zero e), buf) (some errNotStruct)
    | _ => .panic
  | .slice e, cur, buf =>
    match readFull buf 4 with
    | (.error err, buf1) =>
      .ret (cur, buf1) (some (.wrapped "failed to read slice length: " err))
    | (.ok bs, buf1) =>
      match decodeElems (deserializeField e) (zero e) ((Uint32 bs).getD 0) buf1 with
      | .panic => .panic
      | .ret (vs, buf2) err => .ret (.slice e false vs, buf2) err
  | .map k e, cur, buf =>
    match readFull buf 4 with
    | (.error err, buf1) =>
      .ret (cur, buf1) (some (.wrapped "failed to read map length: " err))
    | (.ok bs, buf1) =>
      match decodePairs (deserializeField k) (deserializeField e) (zero k) (zero e)
          ((Uint32 bs).getD 0) [] buf1 with
      | .panic => .panic
      | .ret (m, buf2) err => .ret (.map k e false m, buf2) err
  | t, cur, buf => decodeLeaf t cur buf
/-- The field loop of `deserialize` over the fields of the struct type and
their current values.  A field is skipped when `CheckTag` says so or when it
is unexported; the error of a slice or map field is dropped, the error of any
other field ends the loop. -/
def deserializeFields : List (StructField × Ty) → List (StructField × Value) → Buf →
    Run (List (StructField × Value) × Buf)
  | [], [], buf => .ret ([], buf) none
  | (f, t) :: fs, (cf, cv) :: cs, buf =>
    if CheckTag f cv = false ∨ f.PkgPath ≠ "" then
      match deserializeFields fs cs buf with
      | .panic => .panic
      | .ret (cs1, buf1) err => .ret ((cf, cv) :: cs1, buf1) err
    else
      match deserializeField t cv buf with
      | .panic => .panic
      | .ret (v, buf1) err =>
        match (if isSliceOrMap t then none else err) with
        | some e =>
          .ret ((cf, v) :: cs, buf1) (some (.wrapped "failed to deserialize field: " e))
        | none =>
          match deserializeFields fs cs buf1 with
          | .panic => .panic
          | .ret (cs1, buf2) err1 => .ret ((cf, v) :: cs1, buf2) err1
  | _, _, _ => .panic
end

/-- Embedding of `deserializeSlice` on a field of type `[]e`. -/
def deserializeSlice (e : Ty) (field : Value) (buf : Buf) : Run (Value × Buf) :=
  deserializeField (.slice e) field buf

/-- Embedding of `deserializeMap` on a field of type `map[k]e`. -/
def deserializeMap (k e : Ty) (field : Value) (buf : Buf) : Run (Value × Buf) :=
  deserializeField (.map k e) field buf

/-- Embedding of `deserialize`: the argument must be a pointer whose `Elem()` is a struct
(for a nil pointer `Elem()` is the invalid value, which is not a struct);
then the field loop runs over the struct's own type. -/
def deserialize (data : Value) (buf : Buf) : Run (Value × Buf) :=
  match data with
  | .ptr (.struct cfs) =>
    match deserializeFields (typeOfFields cfs) cfs buf with
    | .panic => .panic
    | .ret (cfs1, buf1) err => .ret (.ptr (.struct cfs1), buf1) err
  | .ptr v => .ret (.ptr v, buf) (some errNotStruct)
  | .nilPtr e => .ret (.nilPtr e, buf) (some errNotStruct)
  | v => .ret (v, buf) (some (.errorf "data is not a pointer"))

/-- Embedding of `Serializer.Deserialize`: optionally decompress, load the buffer, walk the
target.  The state returned is the target after the call and the unread rest
of the buffer. -/
def Deserialize (z : Transform) (compress : Bool) (data : List Nat) (out : Value) :
    Run (Value × Buf) :=
  if compress then
    match z.Decompress data with
    | .error err => .ret (out, []) (some err)
    | .ok data1 => deserialize out data1
  else deserialize out data

/-! ## Fixtures -/

/-- A transform that leaves the bytes as they are; it stands for gzip in the
closed statements below, all of which run with compression off. -/
def plainTransform : Transform := ⟨fun b => .ok b, fun b => .ok b⟩

/-- A field descriptor of an exported field with the given directive. -/
def exportedField (name tag : String) : StructField := ⟨name, tag, ""⟩

/-- The scenario struct `{Name string; Siblings int64; Spouse bool}` with the
directives `name`, `siblings`, `spouse` and the values `("John", 2, true)`. -/
def scenarioJohn : Value :=
  .struct [(exportedField "Name" "name", .string [74, 111, 104, 110]),
           (exportedField "Siblings" "siblings", .int .w64 2),
           (exportedField "Spouse" "spouse", .bool true)]

/-- The bytes the scenario is said to produce: `[2,0] John [8,0] 2.. [1,0] 1`. -/
def scenarioClaimedBytes : List Nat :=
  [2, 0, 74, 111, 104, 110, 8, 0, 2, 0, 0, 0, 0, 0, 0, 0, 1, 0, 1]

/-- The bytes the scenario produces. -/
def scenarioBytes : List Nat :=
  [4, 0, 74, 111, 104, 110, 8, 0, 2, 0, 0, 0, 0, 0, 0, 0, 1, 0, 1]

/-! ## Specification-side definitions -/

/-- Field resolution in the words of the specification: a field is written
when it is exported, its directive is neither empty nor `-`, and it is not an
`omitempty` field holding the zero value. -/
def resolvesToInclude (f : StructField) (v : Value) : Bool :=
  decide (f.PkgPath = "") && decide (f.Tag ≠ "") && decide (f.Tag ≠ "-") &&
    !(decide (f.Tag = "omitempty") && IsZero v)

/-- Write the given field values one after the other with `WriteField`, going
on after an error as `WriteStruct` does. -/
def writeAll : List Value → Buf → Run Buf
  | [], buf => .ret buf none
  | v :: rest, buf =>
    match WriteField v buf with
    | .panic => .panic
    | .ret buf1 _ => writeAll rest buf1

/-- Put the field `x` back at index `n` of the struct a decode returned. -/
def insertField (n : Nat) (x : StructField × Value) :
    Run (List (StructField × Value) × Buf) → Run (List (StructField × Value) × Buf)
  | .panic => .panic
  | .ret (cs, buf) err => .ret (cs.take n ++ x :: cs.drop n, buf) err

/-- The target a call of `deserialize` leaves behind when it was handed a
pointer to a struct: the pointer to the struct with the decoded fields. -/
def asTarget : Run (List (StructField × Value) × Buf) → Run (Value × Buf)
  | .panic => .panic
  | .ret (cs, buf) err => .ret (.ptr (.struct cs), buf) err

mutual
/-- The value with every nil slice and nil map replaced by an empty one: what
"equal, a nil sequence or mapping being equal to an empty one" compares. -/
def norm : Value → Value
  | .slice e _ elems => .slice e false (normList elems)
  | .map k e _ entries => .map k e false (normEntries entries)
  | .ptr v => .ptr (norm v)
  | .struct fs => .struct (normFields fs)
  | v => v
/-- Function `norm` on the elements of a slice. -/
def normList : List Value → List Value
  | [] => []
  | v :: rest => norm v :: normList rest
/-- Function `norm` on the entries of a map. -/
def normEntries : List (Value × Value) → List (Value × Value)
  | [] => []
  | (k, v) :: rest => (norm k, norm v) :: normEntries rest
/-- Function `norm` on the fields of a struct. -/
def normFields : List (StructField × Value) → List (StructField × Value)
  | [] => []
  | (f, v) :: rest => (f, norm v) :: normFields rest
end

/-- The frame of a leaf payload `p`, for a payload short enough that nothing
wraps: the `uint16` length, then the payload. -/
def frame (p : List Nat) : List Nat := le16 p.length ++ p

/-- A directive that includes the field unconditionally. -/
def unconditional (tag : String) : Prop :=
  tag ≠ "" ∧ tag ≠ "-" ∧ tag ≠ "omitempty"

/-- The keys of a map are pairwise different under Go `==`, as they are in
every Go map. -/
def keysDistinct (entries : List (Value × Value)) : Prop :=
  entries.Pairwise (fun a b => keyEq a.1 b.1 = false)

mutual
/-- The round-trip domain: `RT v t` says that `v` is a value of type `t` built
from int64, uint64, float64 (a 64-bit pattern), bool and string leaves of at
most 65,533 bytes, slices and maps of fewer than 2^32 elements, structs
whose fields are all exported with an unconditional directive, and non-nil
pointers to such structs. -/
def RT : Value → Ty → Prop
  | .bool _, .bool => True
  | .int .w64 v, .int .w64 => -9223372036854775808 ≤ v ∧ v < 9223372036854775808
  | .uint .w64 v, .uint .w64 => v < 18446744073709551616
  | .float64 bits, .float64 => bits < 18446744073709551616
  | .string s, .string => s.length ≤ 65533
  | .slice e1 _ elems, .slice e =>
    e1 = e ∧ elems.length < 4294967296 ∧ RTList elems e
  | .map k1 e1 _ entries, .map k e =>
    k1 = k ∧ e1 = e ∧ entries.length < 4294967296 ∧ keysDistinct entries ∧
      RTEntries entries k e
  | .ptr (.struct cfs), .ptr (.struct fs) => RTFields cfs fs
  | .struct cfs, .struct fs => RTFields cfs fs
  | _, _ => False
/-- Every element of a slice is in the domain at the element type. -/
def RTList : List Value → Ty → Prop
  | [], _ => True
  | v :: rest, e => RT v e ∧ RTList rest e
/-- Every key and value of a map is in the domain at its type. -/
def RTEntries : List (Value × Value) → Ty → Ty → Prop
  | [], _, _ => True
  | (k, v) :: rest, kt, et => RT k kt ∧ RT v et ∧ RTEntries rest kt et
/-- The fields of a struct value against the fields of its type: same
descriptor, exported, unconditional directive, value in the domain. -/
def RTFields : List (StructField × Value) → List (StructField × Ty) → Prop
  | [], [] => True
  | (cf, v) :: rest, (f, t) :: fs =>
    cf = f ∧ f.PkgPath = "" ∧ unconditional f.Tag ∧ RT v t ∧ RTFields rest fs
  | _, _ => False
end

/-- The type `struct { Flag bool; Count int64; Ratio float64; Label string }`. -/
def sampleInnerTy : Ty :=
  .struct [(exportedField "Flag" "flag", .bool), (exportedField "Count" "count", .int .w64),
    (exportedField "Ratio" "ratio", .float64), (exportedField "Label" "label", .string)]

def sampleInner (b : Bool) (i : Int) (f : Nat) (s : List Nat) : Value :=
  .struct [(exportedField "Flag" "flag", .bool b), (exportedField "Count" "count", .int .w64 i),
    (exportedField "Ratio" "ratio", .float64 f), (exportedField "Label" "label", .string s)]

def sampleFields : List (StructField × Ty) :=
  [(exportedField "Items" "items", .slice (.map (.int .w64) (.ptr sampleInnerTy))),
   (exportedField "Names" "names", .slice .string),
   (exportedField "Nested" "nested", sampleInnerTy)]

def sampleValue : List (StructField × Value) :=
  [(exportedField "Items" "items", .slice (.map (.int .w64) (.ptr sampleInnerTy)) false
      [.map (.int .w64) (.ptr sampleInnerTy) false
        [(.int .w64 1, .ptr (sampleInner true 123 4638387860618067575 [72, 105])),
         (.int .w64 (-2), .ptr (sampleInner false (-5) 0 []))],
       .map (.int .w64) (.ptr sampleInnerTy) true []]),
   (exportedField "Names" "names", .slice .string true []),
   (exportedField "Nested" "nested", sampleInner true 0 1 [65])]

/-- List of `n` copies of the bool `false`. -/
def manyFalse (n : Nat) : List Value := List.replicate n (.bool false)

/-- The struct `{ L []bool }` holding a slice of `n` elements `false`. -/
def boolSliceStruct (n : Nat) : Value :=
  .struct [(exportedField "L" "l", .slice .bool false (manyFalse n))]

/-- Put the field `x` back at index `n` of the struct behind the pointer a
call of `Deserialize` left as target. -/
def reinsert (n : Nat) (x : StructField × Value) : Run (Value × Buf) → Run (Value × Buf)
  | .ret (.ptr (.struct cs), buf) err => .ret (.ptr (.struct (cs.take n ++ x :: cs.drop n)), buf) err
  | r => r

/-- The struct `{ A int64 "omitempty"; B int64 "b" }` with the values `(5, 7)`. -/
def omitExample : Value :=
  .struct [(exportedField "A" "omitempty", .int .w64 5), (exportedField "B" "b", .int .w64 7)]

/-- What decoding the bytes of `omitExample` into a fresh target leaves: `A`
still zero, `B` holding the 5 that was written for `A`. -/
def omitExampleDecoded : Value :=
  .struct [(exportedField "A" "omitempty", .int .w64 0), (exportedField "B" "b", .int .w64 5)]

/-- The struct type `{ L []int64 "l" }`. -/
def intSliceFields : List (StructField × Ty) := [(exportedField "L" "l", .slice (.int .w64))]

/-- The struct type `{ M map[string]string "m" }`. -/
def stringMapFields : List (StructField × Ty) := [(exportedField "M" "m", .map .string .string)]

/-- The struct `{ P *int64 "p" }` with `P` pointing to 5. -/
def ptrScalarStruct : Value := .struct [(exportedField "P" "p", .ptr (.int .w64 5))]

/-- The map `map[string]string{"a": "b"}`. -/
def smallMap : Value := .map .string .string false [(.string [97], .string [98])]

/-- The slice `[]int64{1, 2}`. -/
def smallSlice : Value := .slice (.int .w64) false [.int .w64 1, .int .w64 2]

/-- A transform that reverses the bytes, its own inverse. -/
def reverseTransform : Transform := ⟨fun b => .ok b.reverse, fun b => .ok b.reverse⟩

/-- The decision on a field as a function of its directive, its exported
status and the zero-ness of its value, in the words of the specification. -/
def fieldDecision (tag : String) (exported zero : Bool) : Bool :=
  exported && decide (tag ≠ "") && decide (tag ≠ "-") && !(decide (tag = "omitempty") && zero)

/-- What `WriteStruct` does with a field it writes: `WriteField`, whose error
is dropped, then the remaining fields. -/
def writeThenRest (v : Value) (rest : List (StructField × Value)) (buf : Buf) : Run Buf :=
  match WriteField v buf with
  | .panic => .panic
  | .ret buf1 _ => WriteStruct rest buf1

/-- What the loop of `deserialize` does with a field it skips: the remaining
fields, the field itself untouched. -/
def skipThenRest (cf : StructField) (cv : Value) (fs : List (StructField × Ty))
    (cs : List (StructField × Value)) (buf : Buf) : Run (List (StructField × Value) × Buf) :=
  match deserializeFields fs cs buf with
  | .panic => .panic
  | .ret (cs1, buf1) err => .ret ((cf, cv) :: cs1, buf1) err

/-- What the loop of `deserialize` does with a field it reads: decode it, stop
at its error unless it is a slice or a map, then the remaining fields. -/
def decodeThenRest (t : Ty) (cf : StructField) (cv : Value) (fs : List (StructField × Ty))
    (cs : List (StructField × Value)) (buf : Buf) : Run (List (StructField × Value) × Buf) :=
  match deserializeField t cv buf with
  | .panic => .panic
  | .ret (v, buf1) err =>
    match (if isSliceOrMap t then none else err) with
    | some e =>
      .ret ((cf, v) :: cs, buf1) (some (.wrapped "failed to deserialize field: " e))
    | none =>
      match deserializeFields fs cs buf1 with
      | .panic => .panic
      | .ret (cs1, buf2) err1 => .ret ((cf, v) :: cs1, buf2) err1

/-- An encoder step that does not look at the buffer it appends to: either it
panics whatever the buffer, or it appends the same bytes and returns `nil`. -/
def Uniform (f : Buf → Run Buf) : Prop :=
  (∀ buf, f buf = .panic) ∨ ∃ bytes : List Nat, ∀ buf, f buf = .ret (buf ++ bytes) none

/-- The encoding of a value: the bytes `WriteField` writes for it, `none` when
it panics. -/
def encoding (v : Value) : Option (List Nat) :=
  match WriteField v [] with
  | .panic => none
  | .ret b _ => some b

/-- The encodings of the values one after the other, `none` when one of the
values has none. -/
def concatEncodings : List Value → Option (List Nat)
  | [] => some []
  | v :: rest =>
    match encoding v, concatEncodings rest with
    | some a, some b => some (a ++ b)
    | _, _ => none

/-- The run that returns the given bytes with a `nil` error, a panic for `none`. -/
def runOf : Option (List Nat) → Run (List Nat)
  | some b => .ret b none
  | none => .panic

/-- The values of the fields `WriteStruct` writes, in declared order. -/
def includedValues (cs : List (StructField × Value)) : List Value :=
  (cs.filter (fun p => resolvesToInclude p.1 p.2)).map Prod.snd

/-- Two field descriptors of the same field in two shapes that differ at most
in the text of a directive that is none of the empty string, `-` and
`omitempty`. -/
def sameButName (f g : StructField) : Prop :=
  f.Name = g.Name ∧ f.PkgPath = g.PkgPath ∧
    (f.Tag = g.Tag ∨ (unconditional f.Tag ∧ unconditional g.Tag))

/-- Two struct values whose shapes have the same fields in the same order and
differ only in directive names, holding equal field values. -/
def sameFieldsButNames :
    List (StructField × Value) → List (StructField × Value) → Prop
  | [], [] => True
  | (f, v) :: rest, (g, w) :: rest2 => sameButName f g ∧ v = w ∧ sameFieldsButNames rest rest2
  | _, _ => False

/-- The field values in the result of the field loop of `deserialize`,
without the descriptors. -/
def loopValues : Run (List (StructField × Value) × Buf) → Run (List Value × Buf)
  | .panic => .panic
  | .ret (cs, buf) err => .ret (cs.map Prod.snd, buf) err

/-- The field values of the struct behind the pointer a call of `Deserialize`
leaves as target, without the descriptors. -/
def fieldValues : Run (Value × Buf) → Run (List Value × Buf)
  | .ret (.ptr (.struct cs), buf) err => .ret (cs.map Prod.snd, buf) err
  | .ret (v, buf) err => .ret ([v], buf) err
  | .panic => .panic

/-- The scenario struct with the directives renamed to `n`, `s`, `p`. -/
def scenarioRenamed : List (StructField × Value) :=
  [(exportedField "Name" "n", .string [74, 111, 104, 110]),
   (exportedField "Siblings" "s", .int .w64 2),
   (exportedField "Spouse" "p", .bool true)]

/-- The fields of the scenario struct. -/
def scenarioFields : List (StructField × Value) :=
  [(exportedField "Name" "name", .string [74, 111, 104, 110]),
   (exportedField "Siblings" "siblings", .int .w64 2),
   (exportedField "Spouse" "spouse", .bool true)]

/-- The types whose values `deserializeField` reads as one leaf frame. -/
def isLeaf : Ty → Bool
  | .bool => true
  | .int _ => true
  | .uint _ => true
  | .float64 => true
  | .string => true
  | .other => true
  | _ => false

/-- Put the already decoded fields `c1` in front of the fields a run of the
field loop returns. -/
def prependFields (c1 : List (StructField × Value)) :
    Run (List (StructField × Value) × Buf) → Run (List (StructField × Value) × Buf)
  | .panic => .panic
  | .ret (cs, buf) err => .ret (c1 ++ cs, buf) err

/-- The fields `{ L []bool }` with the directive `tag`, holding a slice of `n`
elements `false`. -/
def boolSliceTagged (tag : String) (n : Nat) : List (StructField × Value) :=
  [(exportedField "L" tag, .slice .bool false (manyFalse n))]

/-- The struct `{ A bool "a"; E struct{} "e"; B bool "b" }` holding
`(true, {}, false)`. -/
def emptyFieldExample : List (StructField × Value) :=
  [(exportedField "A" "a", .bool true), (exportedField "E" "e", .struct []),
   (exportedField "B" "b", .bool false)]

/-- The struct `{ A bool "a"; In struct { X int64 } "in"; B bool "b" }`, the
inner field `X` without a directive, holding `(true, {5}, false)`. -/
def untaggedInnerExample : List (StructField × Value) :=
  [(exportedField "A" "a", .bool true),
   (exportedField "In" "in", .struct [(exportedField "X" "", .int .w64 5)]),
   (exportedField "B" "b", .bool false)]

/-- The struct `{ A bool "a"; B bool "b" }` holding `(true, false)`. -/
def twoBools : List (StructField × Value) :=
  [(exportedField "A" "a", .bool true), (exportedField "B" "b", .bool false)]

/-- What the round trip of one value says: `bytes` is what the encoder appends
for `v`, and the decoder of type `t`, started on a zero value, reads exactly
those bytes and produces `norm v`. -/
def RoundTrips (v : Value) (t : Ty) (bytes : List Nat) : Prop :=
  (∀ buf, serializeField v buf = .ret (buf ++ bytes) none) ∧
    (∀ r, deserializeField t (zero t) (bytes ++ r) = .ret (norm v, r) none)

/-! ## Theorems -/

/-! ### Helper lemmas -/

theorem WriteField_eq (v : Value) (buf : Buf) : WriteField v buf = serializeField v buf := by
  cases v <;> simp [WriteField, serializeField]

theorem Uint16_le16 (n : Nat) : Uint16 (le16 n) = some (n % 65536) := by
  simp only [Uint16, le16, Option.some.injEq]; omega
theorem Uint32_le32 (n : Nat) : Uint32 (le32 n) = some (n % 4294967296) := by
  simp only [Uint32, le32, Option.some.injEq]; omega
theorem Uint64_le64 (n : Nat) : Uint64 (le64 n) = some (n % 18446744073709551616) := by
  simp only [Uint64, le64, Option.some.injEq]; omega

/-- Function `GetBytes` panics when the length, reduced to `uint16`, is 65,534 or
65,535: the frame is allocated with 0 or 1 bytes. -/
theorem GetBytes_wrap (p : List Nat) (h : 65534 ≤ p.length % 65536) :
    GetBytes p = .panic := by
  have hlt : p.length % 65536 < 65536 := Nat.mod_lt _ (by decide)
  have hn : (2 + p.length % 65536) % 65536 < 2 := by omega
  simp only [GetBytes, PutUint16, List.length_replicate]
  rw [if_pos hn]

/-- Function `GetBytes` below the wrap: the frame is the `uint16` length followed by
that many bytes of the payload. -/
theorem GetBytes_frame (p : List Nat) (h : p.length % 65536 < 65534) :
    GetBytes p = .ret (le16 (p.length % 65536) ++ p.take (p.length % 65536)) none := by
  have hn : (2 + p.length % 65536) % 65536 = 2 + p.length % 65536 := by omega
  have hle : p.length % 65536 ≤ p.length := Nat.mod_le _ _
  have hlen : (le16 (p.length % 65536)).length = 2 := rfl
  simp only [GetBytes, PutUint16, hn, List.length_replicate, copy]
  rw [if_neg (by omega)]
  simp only [List.drop_replicate, List.length_replicate, Nat.add_sub_cancel_left]
  rw [List.drop_append_of_le_length (by omega), List.take_append_of_le_length (by omega)]
  rw [List.take_of_length_le (by omega), List.drop_of_length_le (by omega)]
  have h3 : List.drop p.length ([] ++ List.replicate (p.length % 65536) 0) = [] := by
    apply List.drop_of_length_le
    simp only [List.nil_append, List.length_replicate]
    omega
  rw [h3]
  simp

theorem le16_length (n : Nat) : (le16 n).length = 2 := rfl
theorem le32_length (n : Nat) : (le32 n).length = 4 := rfl
theorem le64_length (n : Nat) : (le64 n).length = 8 := rfl

theorem writeLeaf_small (p : List Nat) (buf : Buf) (h : p.length ≤ 65533) :
    writeLeaf p buf = .ret (buf ++ frame p) none := by
  have hm : p.length % 65536 = p.length := Nat.mod_eq_of_lt (by omega)
  simp only [writeLeaf, GetBytes_frame p (by omega), hm, List.take_length, frame]

theorem readFull_append (p r : List Nat) : readFull (p ++ r) p.length = (.ok p, r) := by
  simp [readFull]

theorem readLeaf_frame (p r : List Nat) (h : p.length < 65536) :
    readLeaf (frame p ++ r) = (.ok p, r) := by
  have h1 : readFull (frame p ++ r) 2 = (.ok (le16 p.length), p ++ r) := by
    have := readFull_append (le16 p.length) (p ++ r)
    simpa [frame, le16_length] using this
  simp only [readLeaf, h1, Uint16_le16, Option.getD_some, Nat.mod_eq_of_lt h, readFull_append]

theorem deserializeField_leaf (t : Ty) (cur : Value) (buf : Buf)
    (h : t = .bool ∨ (∃ w, t = .int w) ∨ (∃ w, t = .uint w) ∨ t = .float64 ∨ t = .string ∨ t = .other) :
    deserializeField t cur buf = decodeLeaf t cur buf := by
  rcases h with h | ⟨w, h⟩ | ⟨w, h⟩ | h | h | h <;> subst h <;> simp [deserializeField]

theorem truncInt_toInt64 (v : Int) (h1 : -9223372036854775808 ≤ v) (h2 : v < 9223372036854775808) :
    truncInt .w64 (toInt64 (toUint64 v % 18446744073709551616)) = v := by
  simp only [truncInt, toInt64, toUint64, Width.bits, Width.size]
  norm_num
  omega

theorem mapInsert_fresh (m : List (Value × Value)) (k v : Value)
    (h : ∀ p ∈ m, keyEq p.1 k = false) : mapInsert m k v = m ++ [(k, v)] := by
  induction m with
  | nil => rfl
  | cons p m ih =>
    obtain ⟨k0, v0⟩ := p
    have h0 : keyEq k0 k = false := h (k0, v0) (List.mem_cons_self _ _)
    simp only [mapInsert, h0, Bool.false_eq_true, if_false, List.cons_append]
    rw [ih (fun p hp => h p (List.mem_cons_of_mem _ hp))]

mutual
theorem keyEq_norm : ∀ (a b : Value), keyEq (norm a) (norm b) = keyEq a b
  | .struct fs, .struct gs => by
    simp only [norm, keyEq]
    exact keyEqFields_norm fs gs
  | .struct _, .bool _ | .struct _, .int _ _ | .struct _, .uint _ _ | .struct _, .float64 _
  | .struct _, .string _ | .struct _, .slice _ _ _ | .struct _, .map _ _ _ _
  | .struct _, .nilPtr _ | .struct _, .ptr _ | .struct _, .other _ => by simp [norm, keyEq]
  | .bool _, b | .int _ _, b | .uint _ _, b | .float64 _, b | .string _, b
  | .slice _ _ _, b | .map _ _ _ _, b | .nilPtr _, b | .ptr _, b | .other _, b => by
    cases b <;> simp [norm, keyEq]
theorem keyEqFields_norm : ∀ (fs gs : List (StructField × Value)),
    keyEqFields (normFields fs) (normFields gs) = keyEqFields fs gs
  | [], [] => by simp [normFields, keyEqFields]
  | [], _ :: _ => by simp [normFields, keyEqFields]
  | _ :: _, [] => by simp [normFields, keyEqFields]
  | (_, v) :: fs, (_, w) :: gs => by
    simp only [normFields, keyEqFields]
    rw [keyEq_norm v w, keyEqFields_norm fs gs]
end

theorem normEntries_mem (ents : List (Value × Value)) (p : Value × Value)
    (h : p ∈ normEntries ents) : ∃ q ∈ ents, p = (norm q.1, norm q.2) := by
  induction ents with
  | nil => simp [normEntries] at h
  | cons q ents ih =>
    obtain ⟨k, v⟩ := q
    simp only [normEntries, List.mem_cons] at h
    rcases h with h | h
    · exact ⟨(k, v), List.mem_cons_self _ _, h⟩
    · obtain ⟨q, hq, e⟩ := ih h
      exact ⟨q, List.mem_cons_of_mem _ hq, e⟩

theorem normList_length (vs : List Value) : (normList vs).length = vs.length := by
  induction vs with
  | nil => rfl
  | cons v vs ih => simp [normList, ih]

theorem CheckTag_unconditional (f : StructField) (v : Value) (h : unconditional f.Tag) :
    CheckTag f v = true := by
  obtain ⟨h1, h2, h3⟩ := h
  simp [CheckTag, h1, h2, h3]

theorem WriteStruct_cons_included (f : StructField) (v : Value)
    (rest : List (StructField × Value)) (buf : Buf)
    (h : unconditional f.Tag) (hp : f.PkgPath = "") :
    WriteStruct ((f, v) :: rest) buf =
      match serializeField v buf with
      | .panic => .panic
      | .ret buf1 _ => WriteStruct rest buf1 := by
  obtain ⟨h1, h2, h3⟩ := h
  simp only [WriteStruct, h1, h2, h3, hp, if_false, false_and, ne_eq, not_true_eq_false]

theorem deserializeFields_cons_included (f : StructField) (t : Ty) (cv : Value)
    (fs : List (StructField × Ty)) (cs : List (StructField × Value)) (cf : StructField)
    (buf : Buf) (h : unconditional f.Tag) (hp : f.PkgPath = "") :
    deserializeFields ((f, t) :: fs) ((cf, cv) :: cs) buf =
      match deserializeField t cv buf with
      | .panic => .panic
      | .ret (v, buf1) err =>
        match (if isSliceOrMap t then none else err) with
        | some e =>
          .ret ((cf, v) :: cs, buf1) (some (.wrapped "failed to deserialize field: " e))
        | none =>
          match deserializeFields fs cs buf1 with
          | .panic => .panic
          | .ret (cs1, buf2) err1 => .ret ((cf, v) :: cs1, buf2) err1 := by
  have hc : ¬(CheckTag f cv = false ∨ f.PkgPath ≠ "") := by
    simp [CheckTag_unconditional f cv h, hp]
  rw [deserializeFields, if_neg hc]

theorem putUint64_eight (v : Nat) : PutUint64 (List.replicate 8 0) v = some (le64 v) := by
  simp [PutUint64]

theorem rt_bool (b : Bool) : RoundTrips (.bool b) .bool (frame [if b then 1 else 0]) := by
  refine ⟨fun buf => ?_, fun r => ?_⟩
  · simp only [serializeField]
    exact writeLeaf_small _ _ (by simp)
  · rw [deserializeField_leaf _ _ _ (Or.inl rfl), decodeLeaf, readLeaf_frame _ _ (by simp)]
    cases b <;> simp [setLeaf, norm]

theorem rt_int64 (v : Int) (h1 : -9223372036854775808 ≤ v) (h2 : v < 9223372036854775808) :
    RoundTrips (.int .w64 v) (.int .w64) (frame (le64 (toUint64 v))) := by
  refine ⟨fun buf => ?_, fun r => ?_⟩
  · simp only [serializeField, intPayload, Width.size, putUint64_eight]
    exact writeLeaf_small _ _ (by simp [le64_length])
  · rw [deserializeField_leaf _ _ _ (Or.inr (Or.inl ⟨_, rfl⟩)), decodeLeaf,
      readLeaf_frame _ _ (by simp [le64_length])]
    simp only [setLeaf, Uint64_le64, norm]
    rw [truncInt_toInt64 v h1 h2]

theorem rt_uint64 (v : Nat) (h : v < 18446744073709551616) :
    RoundTrips (.uint .w64 v) (.uint .w64) (frame (le64 (v % 18446744073709551616))) := by
  refine ⟨fun buf => ?_, fun r => ?_⟩
  · simp only [serializeField, intPayload, Width.size, putUint64_eight]
    exact writeLeaf_small _ _ (by simp [le64_length])
  · rw [deserializeField_leaf _ _ _ (Or.inr (Or.inr (Or.inl ⟨_, rfl⟩))), decodeLeaf,
      readLeaf_frame _ _ (by simp [le64_length])]
    simp only [setLeaf, Uint64_le64, norm, truncUint, Width.bits, Width.size]
    have : v % 18446744073709551616 % 18446744073709551616 % 2 ^ (8 * 8) = v := by
      norm_num; omega
    rw [this]

theorem rt_float64 (bits : Nat) (h : bits < 18446744073709551616) :
    RoundTrips (.float64 bits) .float64 (frame (le64 (bits % 18446744073709551616))) := by
  refine ⟨fun buf => ?_, fun r => ?_⟩
  · simp only [serializeField, putUint64_eight]
    exact writeLeaf_small _ _ (by simp [le64_length])
  · rw [deserializeField_leaf _ _ _ (Or.inr (Or.inr (Or.inr (Or.inl rfl)))), decodeLeaf,
      readLeaf_frame _ _ (by simp [le64_length])]
    simp only [setLeaf, Uint64_le64, norm]
    have : bits % 18446744073709551616 % 18446744073709551616 = bits := by omega
    rw [this]

theorem rt_string (s : List Nat) (h : s.length ≤ 65533) :
    RoundTrips (.string s) .string (frame s) := by
  refine ⟨fun buf => ?_, fun r => ?_⟩
  · simp only [serializeField]
    exact writeLeaf_small _ _ h
  · rw [deserializeField_leaf _ _ _ (Or.inr (Or.inr (Or.inr (Or.inr (Or.inl rfl))))),
      decodeLeaf, readLeaf_frame _ _ (by omega)]
    simp [setLeaf, norm]

/-- Round trip of the leaves of the domain. -/
theorem rt_leaf (v : Value) (t : Ty) (h : RT v t)
    (hl : (∃ b, v = .bool b) ∨ (∃ w x, v = .int w x) ∨ (∃ w x, v = .uint w x) ∨
      (∃ x, v = .float64 x) ∨ (∃ s, v = .string s)) :
    ∃ bytes, RoundTrips v t bytes := by
  rcases hl with ⟨b, rfl⟩ | ⟨w, x, rfl⟩ | ⟨w, x, rfl⟩ | ⟨x, rfl⟩ | ⟨s, rfl⟩
  · cases t <;> simp only [RT] at h
    exact ⟨_, rt_bool b⟩
  · cases t with
    | int w2 =>
      cases w <;> cases w2 <;> simp only [RT] at h
      exact ⟨_, rt_int64 x h.1 h.2⟩
    | _ => cases w <;> simp only [RT] at h
  · cases t with
    | uint w2 =>
      cases w <;> cases w2 <;> simp only [RT] at h
      exact ⟨_, rt_uint64 x h⟩
    | _ => cases w <;> simp only [RT] at h
  · cases t <;> simp only [RT] at h
    exact ⟨_, rt_float64 x h⟩
  · cases t <;> simp only [RT] at h
    exact ⟨_, rt_string s h⟩

theorem RT_slice_inv {e1 : Ty} {n : Bool} {elems : List Value} {t : Ty}
    (h : RT (.slice e1 n elems) t) :
    t = .slice e1 ∧ elems.length < 4294967296 ∧ RTList elems e1 := by
  cases t <;> simp only [RT] at h
  obtain ⟨rfl, h2, h3⟩ := h
  exact ⟨rfl, h2, h3⟩

theorem RT_map_inv {k1 e1 : Ty} {n : Bool} {ents : List (Value × Value)} {t : Ty}
    (h : RT (.map k1 e1 n ents) t) :
    t = .map k1 e1 ∧ ents.length < 4294967296 ∧ keysDistinct ents ∧ RTEntries ents k1 e1 := by
  cases t <;> simp only [RT] at h
  obtain ⟨rfl, rfl, h2, h3, h4⟩ := h
  exact ⟨rfl, h2, h3, h4⟩

theorem RT_struct_inv {cfs : List (StructField × Value)} {t : Ty}
    (h : RT (.struct cfs) t) : ∃ fs, t = .struct fs ∧ RTFields cfs fs := by
  cases t <;> simp only [RT] at h
  exact ⟨_, rfl, h⟩

theorem RT_ptr_struct_inv {cfs : List (StructField × Value)} {t : Ty}
    (h : RT (.ptr (.struct cfs)) t) : ∃ fs, t = .ptr (.struct fs) ∧ RTFields cfs fs := by
  cases t with
  | ptr e =>
    cases e with
    | struct fs =>
      simp only [RT] at h
      exact ⟨_, rfl, h⟩
    | _ => simp only [RT] at h
  | _ => simp only [RT] at h

theorem RT_ptr_other {v : Value} {t : Ty} (h : RT (.ptr v) t)
    (hv : ∀ cfs, v ≠ .struct cfs) : False := by
  cases v <;> cases t <;> simp only [RT] at h
  exact hv _ rfl

theorem RTFields_cons_inv {cf : StructField} {v : Value} {rest : List (StructField × Value)}
    {fs : List (StructField × Ty)} (h : RTFields ((cf, v) :: rest) fs) :
    ∃ t fs1, fs = (cf, t) :: fs1 ∧ cf.PkgPath = "" ∧ unconditional cf.Tag ∧ RT v t ∧
      RTFields rest fs1 := by
  cases fs with
  | nil => simp only [RTFields] at h
  | cons p fs1 =>
    obtain ⟨f, t⟩ := p
    simp only [RTFields] at h
    obtain ⟨rfl, h2, h3, h4, h5⟩ := h
    exact ⟨t, fs1, rfl, h2, h3, h4, h5⟩

theorem RTFields_nil_inv {fs : List (StructField × Ty)} (h : RTFields [] fs) : fs = [] := by
  cases fs with
  | nil => rfl
  | cons p fs1 => simp only [RTFields] at h

theorem readFull_le32 (n : Nat) (rest : List Nat) :
    readFull (le32 n ++ rest) 4 = (.ok (le32 n), rest) := by
  have := readFull_append (le32 n) rest
  simpa [le32_length] using this

mutual
theorem rt_value : ∀ (v : Value) (t : Ty), RT v t → ∃ bytes : List Nat, RoundTrips v t bytes
  | .bool b, t, h => rt_leaf _ t h (Or.inl ⟨_, rfl⟩)
  | .int w v, t, h => rt_leaf _ t h (Or.inr (Or.inl ⟨_, _, rfl⟩))
  | .uint w v, t, h => rt_leaf _ t h (Or.inr (Or.inr (Or.inl ⟨_, _, rfl⟩)))
  | .float64 bits, t, h => rt_leaf _ t h (Or.inr (Or.inr (Or.inr (Or.inl ⟨_, rfl⟩))))
  | .string s, t, h => rt_leaf _ t h (Or.inr (Or.inr (Or.inr (Or.inr ⟨_, rfl⟩))))
  | .slice e1 n elems, t, h => by
    obtain ⟨ht, hlen, hl⟩ := RT_slice_inv h
    obtain ⟨bytes, hs, hd⟩ := rt_elems elems e1 hl
    refine ⟨le32 (elems.length % 4294967296) ++ bytes, fun buf => ?_, fun r => ?_⟩
    · simp only [serializeField, hs, List.append_assoc]
    · have h2 : elems.length % 4294967296 % 4294967296 = elems.length := by omega
      rw [ht]
      simp only [deserializeField, List.append_assoc, readFull_le32, Uint32_le32,
        Option.getD_some, h2, hd r, norm]
  | .map k1 e1 n entries, t, h => by
    obtain ⟨ht, hlen, hdist, hl⟩ := RT_map_inv h
    obtain ⟨bytes, hs, hd⟩ := rt_entries entries k1 e1 hl
    refine ⟨le32 (entries.length % 4294967296) ++ bytes, fun buf => ?_, fun r => ?_⟩
    · simp only [serializeField, hs, List.append_assoc]
    · have h2 : entries.length % 4294967296 % 4294967296 = entries.length := by omega
      rw [ht]
      simp only [deserializeField, List.append_assoc, readFull_le32, Uint32_le32,
        Option.getD_some, h2]
      rw [hd r [] hdist (by simp)]
      simp only [norm, List.nil_append]
  | .nilPtr _, t, h => by
    cases t <;> simp only [RT] at h
  | .other _, t, h => by
    cases t <;> simp only [RT] at h
  | .struct cfs, t, h => by
    obtain ⟨fs, ht, hf⟩ := RT_struct_inv h
    obtain ⟨bytes, hs, hd⟩ := rt_fields cfs fs hf
    refine ⟨bytes, fun buf => ?_, fun r => ?_⟩
    · simp only [serializeField, hs]
    · rw [ht]
      simp only [zero, deserializeField, hd, norm]
  | .ptr (.struct cfs), t, h => by
    obtain ⟨fs, ht, hf⟩ := RT_ptr_struct_inv h
    obtain ⟨bytes, hs, hd⟩ := rt_fields cfs fs hf
    refine ⟨bytes, fun buf => ?_, fun r => ?_⟩
    · simp only [serializeField, hs]
    · rw [ht]
      simp only [zero, deserializeField, hd, norm]
  | .ptr (.bool _), t, h | .ptr (.int _ _), t, h | .ptr (.uint _ _), t, h
  | .ptr (.float64 _), t, h | .ptr (.string _), t, h | .ptr (.slice _ _ _), t, h
  | .ptr (.map _ _ _ _), t, h | .ptr (.nilPtr _), t, h | .ptr (.ptr _), t, h
  | .ptr (.other _), t, h => (RT_ptr_other h (fun _ hc => by cases hc)).elim
theorem rt_elems : ∀ (vs : List Value) (e : Ty), RTList vs e →
    ∃ bytes : List Nat, (∀ buf, serializeElems vs buf = .ret (buf ++ bytes) none) ∧
      (∀ r, decodeElems (deserializeField e) (zero e) vs.length (bytes ++ r)
        = .ret (normList vs, r) none)
  | [], e, _ => ⟨[], fun buf => by simp [serializeElems], fun r => by
      simp [decodeElems, normList]⟩
  | v :: rest, e, h => by
    simp only [RTList] at h
    obtain ⟨b1, hs1, hd1⟩ := rt_value v e h.1
    obtain ⟨b2, hs2, hd2⟩ := rt_elems rest e h.2
    refine ⟨b1 ++ b2, fun buf => ?_, fun r => ?_⟩
    · simp only [serializeElems, hs1, hs2, List.append_assoc]
    · simp only [List.length_cons, decodeElems, List.append_assoc, hd1, hd2, normList]
theorem rt_entries : ∀ (ents : List (Value × Value)) (k e : Ty), RTEntries ents k e →
    ∃ bytes : List Nat, (∀ buf, serializeMapFields ents buf = .ret (buf ++ bytes) none) ∧
      (∀ r m, keysDistinct ents →
        (∀ p ∈ m, ∀ q ∈ ents, keyEq p.1 (norm q.1) = false) →
        decodePairs (deserializeField k) (deserializeField e) (zero k) (zero e)
          ents.length m (bytes ++ r) = .ret (m ++ normEntries ents, r) none)
  | [], k, e, _ => ⟨[], fun buf => by simp [serializeMapFields], fun r m _ _ => by
      simp [decodePairs, normEntries]⟩
  | (kv, vv) :: rest, k, e, h => by
    simp only [RTEntries] at h
    obtain ⟨b1, hs1, hd1⟩ := rt_value kv k h.1
    obtain ⟨b2, hs2, hd2⟩ := rt_value vv e h.2.1
    obtain ⟨b3, hs3, hd3⟩ := rt_entries rest k e h.2.2
    refine ⟨b1 ++ (b2 ++ b3), fun buf => ?_, fun r m hdist hm => ?_⟩
    · simp only [serializeMapFields, hs1, hs2, hs3, List.append_assoc]
    · simp only [List.length_cons, decodePairs, List.append_assoc, hd1, hd2, normEntries]
      have hfresh : mapInsert m (norm kv) (norm vv) = m ++ [(norm kv, norm vv)] :=
        mapInsert_fresh m _ _ (fun p hp => hm p hp (kv, vv) (List.mem_cons_self _ _))
      rw [hfresh]
      simp only [keysDistinct, List.pairwise_cons] at hdist
      rw [hd3 r _ hdist.2]
      · simp
      · intro p hp q hq
        rcases List.mem_append.1 hp with hp | hp
        · exact hm p hp q (List.mem_cons_of_mem _ hq)
        · simp only [List.mem_singleton] at hp
          subst hp
          rw [keyEq_norm]
          exact hdist.1 q hq
theorem rt_fields : ∀ (cfs : List (StructField × Value)) (fs : List (StructField × Ty)),
    RTFields cfs fs →
    ∃ bytes : List Nat, (∀ buf, WriteStruct cfs buf = .ret (buf ++ bytes) none) ∧
      (∀ r, deserializeFields fs (zeroFields fs) (bytes ++ r) = .ret (normFields cfs, r) none)
  | [], fs, h => by
    rw [RTFields_nil_inv h]
    exact ⟨[], fun buf => by simp [WriteStruct], fun r => by
      simp [deserializeFields, zeroFields, normFields]⟩
  | (cf, v) :: rest, fs, h => by
    obtain ⟨t, fs1, hfs, hp, hu, hv, hrest⟩ := RTFields_cons_inv h
    obtain ⟨b1, hs1, hd1⟩ := rt_value v t hv
    obtain ⟨b2, hs2, hd2⟩ := rt_fields rest fs1 hrest
    refine ⟨b1 ++ b2, fun buf => ?_, fun r => ?_⟩
    · rw [WriteStruct_cons_included _ _ _ _ hu hp]
      simp only [hs1, hs2, List.append_assoc]
    · rw [hfs]
      simp only [zeroFields]
      rw [deserializeFields_cons_included _ _ _ _ _ _ _ hu hp]
      simp only [List.append_assoc, hd1, ite_self, hd2, normFields]
end

mutual
theorem typeOf_zero : ∀ t : Ty, typeOf (zero t) = t
  | .bool | .int _ | .uint _ | .float64 | .string | .slice _ | .map _ _ | .ptr _ | .other => by
    simp [zero, typeOf]
  | .struct fs => by
    simp only [zero, typeOf]
    rw [typeOfFields_zeroFields fs]
theorem typeOfFields_zeroFields : ∀ fs : List (StructField × Ty),
    typeOfFields (zeroFields fs) = fs
  | [] => by simp [zeroFields, typeOfFields]
  | (f, t) :: rest => by
    simp only [zeroFields, typeOfFields]
    rw [typeOf_zero t, typeOfFields_zeroFields rest]
end

mutual
theorem IsZero_zero : ∀ t : Ty, IsZero (zero t) = true
  | .bool | .int _ | .uint _ | .float64 | .string | .slice _ | .map _ _ | .ptr _ | .other => by
    simp [zero, IsZero]
  | .struct fs => by
    simp only [zero, IsZero]
    exact IsZeroFields_zeroFields fs
theorem IsZeroFields_zeroFields : ∀ fs : List (StructField × Ty),
    IsZeroFields (zeroFields fs) = true
  | [] => by simp [zeroFields, IsZeroFields]
  | (f, t) :: rest => by
    simp only [zeroFields, IsZeroFields]
    rw [IsZero_zero t, IsZeroFields_zeroFields rest]
    rfl
end

theorem RTList_manyFalse (n : Nat) : RTList (manyFalse n) .bool := by
  induction n with
  | zero => simp [manyFalse, RTList]
  | succ n ih =>
    simp only [manyFalse, List.replicate_succ, RTList, RT, true_and]
    exact ih

theorem manyFalse_length (n : Nat) : (manyFalse n).length = n := by
  simp only [manyFalse, List.length_replicate]

theorem boolSlice_decodes_empty (n : Nat) (hn : n % 4294967296 = 0) :
    ∃ bytes rest : List Nat,
      Serialize plainTransform false (boolSliceStruct n) = .ret bytes none ∧
      Deserialize plainTransform false bytes (.ptr (zero (typeOf (boolSliceStruct n))))
        = .ret (.ptr (.struct [(exportedField "L" "l", .slice .bool false [])]), rest) none := by
  obtain ⟨bytes, hs, _⟩ := rt_elems (manyFalse n) .bool (RTList_manyFalse _)
  have hu : unconditional (exportedField "L" "l").Tag := by
    simp only [unconditional, exportedField]; decide
  refine ⟨le32 0 ++ bytes, bytes, ?_, ?_⟩
  · simp only [Serialize, serialize, serializeResolved, boolSliceStruct]
    rw [WriteStruct_cons_included _ _ _ _ hu rfl]
    simp only [serializeField, manyFalse_length, hs, hn, List.nil_append, WriteStruct]
    rfl
  · simp only [Deserialize, boolSliceStruct, typeOf, typeOfFields, zero, zeroFields, deserialize,
      Bool.false_eq_true, if_false]
    rw [deserializeFields_cons_included _ _ _ _ _ _ _ hu rfl]
    simp only [deserializeField, readFull_le32]
    have h0 : (Uint32 (le32 0)).getD 0 = 0 := by decide
    simp only [h0, decodeElems, isSliceOrMap, if_true, deserializeFields]

theorem WriteStruct_filter (fs : List (StructField × Value)) (buf : Buf) :
    WriteStruct fs buf =
      writeAll ((fs.filter (fun p => resolvesToInclude p.1 p.2)).map Prod.snd) buf := by
  induction fs generalizing buf with
  | nil => simp [WriteStruct, writeAll]
  | cons p rest ih =>
    obtain ⟨f, v⟩ := p
    by_cases h1 : f.Tag = ""
    · simp [WriteStruct, resolvesToInclude, h1, ih]
    by_cases h2 : f.Tag = "-"
    · simp [WriteStruct, resolvesToInclude, h2, ih]
    by_cases h3 : f.Tag = "omitempty" ∧ IsZero v = true
    · simp [WriteStruct, resolvesToInclude, h3.1, h3.2, ih]
    by_cases h4 : f.PkgPath = ""
    · have hr : resolvesToInclude f v = true := by
        simp only [resolvesToInclude, h4, h1, h2, ne_eq, not_false_eq_true, decide_True,
          Bool.and_self, Bool.true_and, Bool.not_eq_true', Bool.and_eq_false_imp,
          decide_eq_true_eq]
        intro h; by_contra hz; exact h3 ⟨h, by simpa using hz⟩
      simp only [WriteStruct, h1, h2, h3, h4, if_false, ne_eq, not_true_eq_false,
        List.filter_cons, hr, if_true, List.map_cons, writeAll, WriteField_eq]
      cases serializeField v buf with
      | panic => rfl
      | ret b e => exact ih b
    · have hr : resolvesToInclude f v = false := by
        simp [resolvesToInclude, h4]
      simp only [WriteStruct, h1, h2, h3, h4, if_false, ne_eq, not_false_eq_true, if_true,
        List.filter_cons, hr, Bool.false_eq_true]
      exact ih buf

theorem WriteStruct_skip (pre post : List (StructField × Value)) (f : StructField) (v : Value)
    (buf : Buf) (h : resolvesToInclude f v = false) :
    WriteStruct (pre ++ (f, v) :: post) buf = WriteStruct (pre ++ post) buf := by
  rw [WriteStruct_filter, WriteStruct_filter]
  simp [List.filter_cons, h]

theorem resolves_excluded (f : StructField) (v : Value) (h : f.Tag = "" ∨ f.Tag = "-") :
    resolvesToInclude f v = false := by
  rcases h with h | h <;> simp [resolvesToInclude, h]

theorem resolves_omitted (f : StructField) (v : Value) (h : f.Tag = "omitempty")
    (hz : IsZero v = true) : resolvesToInclude f v = false := by
  simp [resolvesToInclude, h, hz]

theorem deserializeFields_skip (fs1 fs2 : List (StructField × Ty))
    (cs1 cs2 : List (StructField × Value)) (f cf : StructField) (t : Ty) (cv : Value)
    (buf : Buf) (hlen : cs1.length = fs1.length)
    (h : CheckTag f cv = false ∨ f.PkgPath ≠ "") :
    deserializeFields (fs1 ++ (f, t) :: fs2) (cs1 ++ (cf, cv) :: cs2) buf =
      insertField fs1.length (cf, cv) (deserializeFields (fs1 ++ fs2) (cs1 ++ cs2) buf) := by
  induction fs1 generalizing cs1 buf with
  | nil =>
    cases cs1 with
    | cons c cs1 => simp at hlen
    | nil =>
      simp only [List.nil_append, List.length_nil]
      rw [deserializeFields, if_pos h]
      cases deserializeFields fs2 cs2 buf with
      | panic => rfl
      | ret st err => obtain ⟨a, b⟩ := st; simp [insertField]
  | cons p fs1 ih =>
    cases cs1 with
    | nil => simp at hlen
    | cons c cs1 =>
      obtain ⟨f1, t1⟩ := p
      obtain ⟨c1, v1⟩ := c
      have hlen1 : cs1.length = fs1.length := by simpa using hlen
      simp only [List.cons_append, List.length_cons]
      rw [deserializeFields, deserializeFields]
      by_cases hc : CheckTag f1 v1 = false ∨ f1.PkgPath ≠ ""
      · rw [if_pos hc, if_pos hc, ih cs1 buf hlen1]
        cases deserializeFields (fs1 ++ fs2) (cs1 ++ cs2) buf with
        | panic => rfl
        | ret st err => obtain ⟨a, b⟩ := st; simp [insertField]
      · rw [if_neg hc, if_neg hc]
        cases deserializeField t1 v1 buf with
        | panic => rfl
        | ret st err =>
          obtain ⟨a, b⟩ := st
          simp only []
          cases (if isSliceOrMap t1 = true then none else err) with
          | some e =>
            simp [insertField, hlen1]
          | none =>
            simp only []
            rw [ih cs1 b hlen1]
            cases deserializeFields (fs1 ++ fs2) (cs1 ++ cs2) b with
            | panic => rfl
            | ret st err => obtain ⟨a, b⟩ := st; simp [insertField]

theorem typeOfFields_append (a b : List (StructField × Value)) :
    typeOfFields (a ++ b) = typeOfFields a ++ typeOfFields b := by
  induction a with
  | nil => simp [typeOfFields]
  | cons p a ih => obtain ⟨f, v⟩ := p; simp [typeOfFields, ih]

theorem typeOfFields_length (a : List (StructField × Value)) :
    (typeOfFields a).length = a.length := by
  induction a with
  | nil => simp [typeOfFields]
  | cons p a ih => obtain ⟨f, v⟩ := p; simp [typeOfFields, ih]

theorem zeroFields_append (a b : List (StructField × Ty)) :
    zeroFields (a ++ b) = zeroFields a ++ zeroFields b := by
  induction a with
  | nil => simp [zeroFields]
  | cons p a ih => obtain ⟨f, t⟩ := p; simp [zeroFields, ih]

theorem zeroFields_length (a : List (StructField × Ty)) :
    (zeroFields a).length = a.length := by
  induction a with
  | nil => simp [zeroFields]
  | cons p a ih => obtain ⟨f, t⟩ := p; simp [zeroFields, ih]

theorem deserializeFields_length (fs : List (StructField × Ty))
    (cs cs1 : List (StructField × Value)) (buf buf1 : Buf) (err : Option GoError)
    (h : deserializeFields fs cs buf = .ret (cs1, buf1) err) : cs1.length = cs.length := by
  induction fs generalizing cs cs1 buf buf1 err with
  | nil =>
    cases cs with
    | nil =>
      simp only [deserializeFields, Run.ret.injEq, Prod.mk.injEq] at h
      rw [← h.1.1]
    | cons c cs => simp [deserializeFields] at h
  | cons p fs ih =>
    cases cs with
    | nil => simp [deserializeFields] at h
    | cons c cs =>
      obtain ⟨f, t⟩ := p
      obtain ⟨cf, cv⟩ := c
      rw [deserializeFields] at h
      by_cases hc : CheckTag f cv = false ∨ f.PkgPath ≠ ""
      · rw [if_pos hc] at h
        cases hr : deserializeFields fs cs buf with
        | panic => rw [hr] at h; cases h
        | ret st e =>
          obtain ⟨a, b⟩ := st
          rw [hr] at h
          simp only [Run.ret.injEq, Prod.mk.injEq] at h
          rw [← h.1.1, List.length_cons, List.length_cons, ih cs a buf b e hr]
      · rw [if_neg hc] at h
        cases hd : deserializeField t cv buf with
        | panic => rw [hd] at h; cases h
        | ret st e =>
          obtain ⟨a, b⟩ := st
          rw [hd] at h
          simp only [] at h
          cases he : (if isSliceOrMap t = true then none else e) with
          | some e1 =>
            rw [he] at h
            simp only [Run.ret.injEq, Prod.mk.injEq] at h
            rw [← h.1.1]; simp
          | none =>
            rw [he] at h
            simp only [] at h
            cases hr : deserializeFields fs cs b with
            | panic => rw [hr] at h; cases h
            | ret st2 e2 =>
              obtain ⟨a2, b2⟩ := st2
              rw [hr] at h
              simp only [Run.ret.injEq, Prod.mk.injEq] at h
              rw [← h.1.1, List.length_cons, List.length_cons, ih cs a2 b b2 e2 hr]

theorem deserializeFields_congr (fs1 fs2 : List (StructField × Ty))
    (cs1 cs2 : List (StructField × Value)) (f g cf : StructField) (t : Ty) (cv : Value)
    (buf : Buf) (hlen : cs1.length = fs1.length)
    (hc : CheckTag f cv = CheckTag g cv) (hp : f.PkgPath = g.PkgPath) :
    deserializeFields (fs1 ++ (f, t) :: fs2) (cs1 ++ (cf, cv) :: cs2) buf =
      deserializeFields (fs1 ++ (g, t) :: fs2) (cs1 ++ (cf, cv) :: cs2) buf := by
  induction fs1 generalizing cs1 buf with
  | nil =>
    cases cs1 with
    | cons c cs1 => simp at hlen
    | nil =>
      simp only [List.nil_append]
      rw [deserializeFields, deserializeFields, hc, hp]
  | cons p fs1 ih =>
    cases cs1 with
    | nil => simp at hlen
    | cons c cs1 =>
      obtain ⟨f1, t1⟩ := p
      obtain ⟨c1, v1⟩ := c
      have hlen1 : cs1.length = fs1.length := by simpa using hlen
      simp only [List.cons_append]
      rw [deserializeFields, deserializeFields]
      by_cases hk : CheckTag f1 v1 = false ∨ f1.PkgPath ≠ ""
      · rw [if_pos hk, if_pos hk, ih cs1 buf hlen1]
      · rw [if_neg hk, if_neg hk]
        cases deserializeField t1 v1 buf with
        | panic => rfl
        | ret st err =>
          obtain ⟨a, b⟩ := st
          simp only []
          cases (if isSliceOrMap t1 = true then none else err) with
          | some e => rfl
          | none =>
            simp only []
            rw [ih cs1 b hlen1]

theorem deserialize_skip (pre post : List (StructField × Value)) (f : StructField) (v : Value)
    (buf : Buf) (h : CheckTag f v = false ∨ f.PkgPath ≠ "") :
    deserialize (.ptr (.struct (pre ++ (f, v) :: post))) buf =
      reinsert pre.length (f, v) (deserialize (.ptr (.struct (pre ++ post))) buf) := by
  simp only [deserialize, typeOfFields_append, typeOfFields]
  rw [deserializeFields_skip _ _ _ _ _ _ _ _ _ (typeOfFields_length pre).symm h,
    typeOfFields_length]
  cases deserializeFields (typeOfFields pre ++ typeOfFields post) (pre ++ post) buf with
  | panic => rfl
  | ret st err => obtain ⟨a, b⟩ := st; rfl

theorem Deserialize_skip (z : Transform) (compress : Bool) (data : List Nat)
    (pre post : List (StructField × Value)) (f : StructField) (v : Value)
    (h : CheckTag f v = false ∨ f.PkgPath ≠ "") :
    Deserialize z compress data (.ptr (.struct (pre ++ (f, v) :: post))) =
      reinsert pre.length (f, v)
        (Deserialize z compress data (.ptr (.struct (pre ++ post)))) := by
  unfold Deserialize
  cases compress with
  | false => simp only [Bool.false_eq_true, if_false]; exact deserialize_skip _ _ _ _ _ h
  | true =>
    simp only [if_true]
    cases z.Decompress data with
    | error e => simp [reinsert]
    | ok d => exact deserialize_skip _ _ _ _ _ h

theorem Deserialize_shape (z : Transform) (compress : Bool) (data : List Nat)
    (cs : List (StructField × Value)) (out : Value) (rest : Buf) (err : Option GoError)
    (h : Deserialize z compress data (.ptr (.struct cs)) = .ret (out, rest) err) :
    ∃ cs1, out = .ptr (.struct cs1) ∧ cs1.length = cs.length := by
  have key : ∀ buf, deserialize (.ptr (.struct cs)) buf = .ret (out, rest) err →
      ∃ cs1, out = .ptr (.struct cs1) ∧ cs1.length = cs.length := by
    intro buf hb
    simp only [deserialize] at hb
    cases hr : deserializeFields (typeOfFields cs) cs buf with
    | panic => rw [hr] at hb; cases hb
    | ret st e =>
      obtain ⟨a, b⟩ := st
      rw [hr] at hb
      simp only [Run.ret.injEq, Prod.mk.injEq] at hb
      exact ⟨a, hb.1.1.symm, deserializeFields_length _ _ _ _ _ _ hr⟩
  unfold Deserialize at h
  cases compress with
  | false => simp only [Bool.false_eq_true, if_false] at h; exact key _ h
  | true =>
    simp only [if_true] at h
    cases hd : z.Decompress data with
    | error e =>
      rw [hd] at h
      simp only [Run.ret.injEq, Prod.mk.injEq] at h
      exact ⟨cs, h.1.1.symm, rfl⟩
    | ok d => rw [hd] at h; exact key _ h

theorem reinsert_index (n : Nat) (x : StructField × Value) (r : Run (Value × Buf))
    (cs0 : List (StructField × Value)) (hn : n ≤ cs0.length)
    (hr : ∀ out rest err, r = .ret (out, rest) err →
      ∃ cs1, out = .ptr (.struct cs1) ∧ cs1.length = cs0.length)
    (out : Value) (rest : Buf) (err : Option GoError)
    (h : reinsert n x r = .ret (out, rest) err) :
    ∃ cs, out = .ptr (.struct cs) ∧ cs[n]? = some x := by
  cases r with
  | panic => simp [reinsert] at h
  | ret st e =>
    obtain ⟨o, b⟩ := st
    obtain ⟨cs1, rfl, hl⟩ := hr o b e rfl
    simp only [reinsert, Run.ret.injEq, Prod.mk.injEq] at h
    refine ⟨_, h.1.1.symm, ?_⟩
    have : (List.take n cs1).length = n := by simp; omega
    rw [List.getElem?_append_right (by omega), this]
    simp

theorem Serialize_struct_congr (z : Transform) (compress : Bool)
    (a b : List (StructField × Value)) (h : ∀ buf, WriteStruct a buf = WriteStruct b buf) :
    Serialize z compress (.struct a) = Serialize z compress (.struct b) ∧
    Serialize z compress (.ptr (.struct a)) = Serialize z compress (.ptr (.struct b)) := by
  simp only [Serialize, serialize, serializeResolved, h, and_self]

theorem sample_in_domain : RT (.struct sampleValue) (.struct sampleFields) := by
  simp only [RT, RTList, RTEntries, RTFields, unconditional, exportedField,
    sampleValue, sampleFields, sampleInner, sampleInnerTy, List.length_cons, List.length_nil,
    true_and, and_true, keysDistinct, List.pairwise_cons, List.Pairwise.nil, List.mem_cons,
    List.mem_singleton, forall_eq_or_imp, forall_eq, List.not_mem_nil, IsEmpty.forall_iff,
    implies_true]
  simp only [keyEq]
  split_ands <;> decide

theorem norm_empty_slice_struct (f : StructField) (e : Ty) (l : List Value)
    (h : norm (.struct [(f, .slice e false [])]) = norm (.struct [(f, .slice e false l)])) :
    l.length = 0 := by
  simp only [norm, normFields, normList, Value.struct.injEq, List.cons.injEq,
    Prod.mk.injEq, Value.slice.injEq, true_and, and_true] at h
  have hl := congrArg List.length h
  rw [normList_length] at hl
  exact hl.symm

theorem GetBytes_no_error (p : List Nat) :
    GetBytes p = .panic ∨ ∃ data, GetBytes p = .ret data none := by
  unfold GetBytes
  simp only []
  cases PutUint16 (List.replicate ((2 + p.length % 65536) % 65536) 0) (p.length % 65536) with
  | none => exact Or.inl rfl
  | some b => exact Or.inr ⟨_, rfl⟩

theorem writeLeaf_uniform (p : List Nat) : Uniform (writeLeaf p) := by
  rcases GetBytes_no_error p with h | ⟨data, h⟩
  · exact Or.inl (fun buf => by simp [writeLeaf, h])
  · exact Or.inr ⟨data, fun buf => by simp [writeLeaf, h]⟩

theorem uniform_panic : Uniform (fun _ => Run.panic) := Or.inl (fun _ => rfl)

theorem uniform_leafOpt (o : Option (List Nat)) :
    Uniform (fun buf => match o with
      | none => Run.panic
      | some ndata => writeLeaf ndata buf) := by
  cases o with
  | none => exact uniform_panic
  | some p => exact writeLeaf_uniform p

theorem uniform_shift (f : Buf → Run Buf) (pre : List Nat) (h : Uniform f) :
    Uniform (fun buf => f (buf ++ pre)) := by
  rcases h with h | ⟨bytes, h⟩
  · exact Or.inl (fun buf => h _)
  · exact Or.inr ⟨pre ++ bytes, fun buf => by
      show f (buf ++ pre) = _
      rw [h, List.append_assoc]⟩

mutual
theorem serializeField_uniform : ∀ v : Value, Uniform (serializeField v)
  | .struct fs => by
    have h := WriteStruct_uniform fs
    rcases h with h | ⟨bytes, h⟩
    · exact Or.inl (fun buf => by rw [serializeField, h])
    · exact Or.inr ⟨bytes, fun buf => by rw [serializeField, h]⟩
  | .string s => by
    have h := writeLeaf_uniform s
    rcases h with h | ⟨bytes, h⟩
    · exact Or.inl (fun buf => by rw [serializeField, h])
    · exact Or.inr ⟨bytes, fun buf => by rw [serializeField, h]⟩
  | .bool b => by
    have h := writeLeaf_uniform [if b then 1 else 0]
    rcases h with h | ⟨bytes, h⟩
    · exact Or.inl (fun buf => by rw [serializeField, h])
    · exact Or.inr ⟨bytes, fun buf => by rw [serializeField, h]⟩
  | .int w v => by
    have h := uniform_leafOpt (intPayload w (toUint64 v))
    rcases h with h | ⟨bytes, h⟩
    · exact Or.inl (fun buf => by rw [serializeField]; exact h buf)
    · exact Or.inr ⟨bytes, fun buf => by rw [serializeField]; exact h buf⟩
  | .uint w v => by
    have h := uniform_leafOpt (intPayload w (v % 18446744073709551616))
    rcases h with h | ⟨bytes, h⟩
    · exact Or.inl (fun buf => by rw [serializeField]; exact h buf)
    · exact Or.inr ⟨bytes, fun buf => by rw [serializeField]; exact h buf⟩
  | .float64 bits => by
    have h := uniform_leafOpt (PutUint64 (List.replicate 8 0) (bits % 18446744073709551616))
    rcases h with h | ⟨bytes, h⟩
    · exact Or.inl (fun buf => by rw [serializeField]; exact h buf)
    · exact Or.inr ⟨bytes, fun buf => by rw [serializeField]; exact h buf⟩
  | .slice _ _ elems => by
    have h := uniform_shift _ (le32 (elems.length % 4294967296)) (serializeElems_uniform elems)
    rcases h with h | ⟨bytes, h⟩
    · exact Or.inl (fun buf => by rw [serializeField]; exact h buf)
    · exact Or.inr ⟨bytes, fun buf => by rw [serializeField]; exact h buf⟩
  | .map _ _ _ entries => by
    have h := uniform_shift _ (le32 (entries.length % 4294967296))
      (serializeMapFields_uniform entries)
    rcases h with h | ⟨bytes, h⟩
    · exact Or.inl (fun buf => by rw [serializeField]; exact h buf)
    · exact Or.inr ⟨bytes, fun buf => by rw [serializeField]; exact h buf⟩
  | .ptr v => by
    have h := serializeField_uniform v
    rcases h with h | ⟨bytes, h⟩
    · exact Or.inl (fun buf => by rw [serializeField, h])
    · exact Or.inr ⟨bytes, fun buf => by rw [serializeField, h]⟩
  | .nilPtr _ => Or.inl (fun buf => by rw [serializeField])
  | .other _ => Or.inl (fun buf => by rw [serializeField])
theorem serializeElems_uniform : ∀ vs : List Value, Uniform (serializeElems vs)
  | [] => Or.inr ⟨[], fun buf => by simp [serializeElems]⟩
  | v :: rest => by
    have h1 := serializeField_uniform v
    have h2 := serializeElems_uniform rest
    rcases h1 with h1 | ⟨b1, h1⟩
    · exact Or.inl (fun buf => by rw [serializeElems, h1])
    · rcases h2 with h2 | ⟨b2, h2⟩
      · exact Or.inl (fun buf => by rw [serializeElems, h1]; exact h2 _)
      · exact Or.inr ⟨b1 ++ b2, fun buf => by
          rw [serializeElems, h1]; simp only []; rw [h2, List.append_assoc]⟩
theorem serializeMapFields_uniform : ∀ es : List (Value × Value), Uniform (serializeMapFields es)
  | [] => Or.inr ⟨[], fun buf => by simp [serializeMapFields]⟩
  | (k, v) :: rest => by
    have h1 := serializeField_uniform k
    have h2 := serializeField_uniform v
    have h3 := serializeMapFields_uniform rest
    rcases h1 with h1 | ⟨b1, h1⟩
    · exact Or.inl (fun buf => by rw [serializeMapFields, h1])
    · rcases h2 with h2 | ⟨b2, h2⟩
      · exact Or.inl (fun buf => by rw [serializeMapFields, h1]; simp only []; rw [h2])
      · rcases h3 with h3 | ⟨b3, h3⟩
        · exact Or.inl (fun buf => by
            rw [serializeMapFields, h1]; simp only []; rw [h2]; exact h3 _)
        · exact Or.inr ⟨b1 ++ (b2 ++ b3), fun buf => by
            rw [serializeMapFields, h1]; simp only []; rw [h2]; simp only []
            rw [h3]; simp only [List.append_assoc]⟩
theorem WriteStruct_uniform : ∀ fs : List (StructField × Value), Uniform (WriteStruct fs)
  | [] => Or.inr ⟨[], fun buf => by simp [WriteStruct]⟩
  | (f, v) :: rest => by
    have h1 := serializeField_uniform v
    have h2 := WriteStruct_uniform rest
    by_cases hr : resolvesToInclude f v = true
    · have hw : ∀ buf, WriteStruct ((f, v) :: rest) buf =
          (match serializeField v buf with
            | .panic => .panic
            | .ret buf1 _ => WriteStruct rest buf1) := by
        intro buf
        rw [WriteStruct_filter, List.filter_cons]
        simp only [hr, if_true, List.map_cons, writeAll, WriteField_eq]
        cases serializeField v buf with
        | panic => rfl
        | ret b e => simp only []; rw [WriteStruct_filter]
      rcases h1 with h1 | ⟨b1, h1⟩
      · exact Or.inl (fun buf => by rw [hw, h1])
      · rcases h2 with h2 | ⟨b2, h2⟩
        · exact Or.inl (fun buf => by rw [hw, h1]; exact h2 _)
        · exact Or.inr ⟨b1 ++ b2, fun buf => by
            rw [hw, h1]; simp only []; rw [h2, List.append_assoc]⟩
    · have hw : ∀ buf, WriteStruct ((f, v) :: rest) buf = WriteStruct rest buf := by
        intro buf
        have := WriteStruct_skip [] rest f v buf (by simpa using hr)
        simpa using this
      rcases h2 with h2 | ⟨b2, h2⟩
      · exact Or.inl (fun buf => by rw [hw, h2])
      · exact Or.inr ⟨b2, fun buf => by rw [hw, h2]⟩
end

theorem encoding_of_uniform (v : Value) :
    (encoding v = none ∧ ∀ buf, WriteField v buf = .panic) ∨
    ∃ bytes, encoding v = some bytes ∧ ∀ buf, WriteField v buf = .ret (buf ++ bytes) none := by
  rcases serializeField_uniform v with h | ⟨bytes, h⟩
  · exact Or.inl ⟨by simp [encoding, WriteField_eq, h], fun buf => by rw [WriteField_eq, h]⟩
  · exact Or.inr ⟨bytes, by simp [encoding, WriteField_eq, h], fun buf => by rw [WriteField_eq, h]⟩

theorem writeAll_concat (vs : List Value) (buf : Buf) :
    writeAll vs buf =
      match concatEncodings vs with
      | some bytes => .ret (buf ++ bytes) none
      | none => .panic := by
  induction vs generalizing buf with
  | nil => simp [writeAll, concatEncodings]
  | cons v rest ih =>
    rcases encoding_of_uniform v with ⟨he, hw⟩ | ⟨bytes, he, hw⟩
    · simp [writeAll, concatEncodings, he, hw]
    · simp only [writeAll, concatEncodings, he, hw, ih]
      cases concatEncodings rest with
      | none => rfl
      | some b => simp

theorem serializeElems_concat (vs : List Value) (buf : Buf) :
    serializeElems vs buf =
      match concatEncodings vs with
      | some bytes => .ret (buf ++ bytes) none
      | none => .panic := by
  induction vs generalizing buf with
  | nil => simp [serializeElems, concatEncodings]
  | cons v rest ih =>
    rcases encoding_of_uniform v with ⟨he, hw⟩ | ⟨bytes, he, hw⟩
    · simp [serializeElems, concatEncodings, he, ← WriteField_eq, hw]
    · simp only [serializeElems, concatEncodings, he, ← WriteField_eq, hw, ih]
      cases concatEncodings rest with
      | none => rfl
      | some b => simp

theorem sameButName_decision (f g : StructField) (v : Value) (h : sameButName f g) :
    CheckTag f v = CheckTag g v ∧ resolvesToInclude f v = resolvesToInclude g v := by
  obtain ⟨_, hp, ht⟩ := h
  rcases ht with ht | ⟨⟨a1, a2, a3⟩, ⟨b1, b2, b3⟩⟩
  · simp [CheckTag, resolvesToInclude, ht, hp]
  · simp [CheckTag, resolvesToInclude, hp, a1, a2, a3, b1, b2, b3]

theorem sameFields_values (cs cs2 : List (StructField × Value))
    (h : sameFieldsButNames cs cs2) : cs.map Prod.snd = cs2.map Prod.snd := by
  induction cs generalizing cs2 with
  | nil =>
    cases cs2 with
    | nil => rfl
    | cons q cs2 => simp [sameFieldsButNames] at h
  | cons p cs ih =>
    cases cs2 with
    | nil => simp [sameFieldsButNames] at h
    | cons q cs2 =>
      obtain ⟨f, v⟩ := p
      obtain ⟨g, w⟩ := q
      simp only [sameFieldsButNames] at h
      obtain ⟨_, rfl, hr⟩ := h
      simp [ih cs2 hr]

theorem sameFields_write (cs cs2 : List (StructField × Value))
    (h : sameFieldsButNames cs cs2) (buf : Buf) : WriteStruct cs buf = WriteStruct cs2 buf := by
  rw [WriteStruct_filter, WriteStruct_filter]
  congr 1
  induction cs generalizing cs2 with
  | nil =>
    cases cs2 with
    | nil => rfl
    | cons q cs2 => simp [sameFieldsButNames] at h
  | cons p cs ih =>
    cases cs2 with
    | nil => simp [sameFieldsButNames] at h
    | cons q cs2 =>
      obtain ⟨f, v⟩ := p
      obtain ⟨g, w⟩ := q
      simp only [sameFieldsButNames] at h
      obtain ⟨hn, rfl, hr⟩ := h
      simp only [List.filter_cons, (sameButName_decision f g v hn).2]
      cases resolvesToInclude g v with
      | true => simp [ih cs2 hr]
      | false => simpa using ih cs2 hr

theorem sameFields_decode (cs cs2 : List (StructField × Value))
    (h : sameFieldsButNames cs cs2) (buf : Buf) :
    loopValues (deserializeFields (typeOfFields cs) cs buf)
      = loopValues (deserializeFields (typeOfFields cs2) cs2 buf) := by
  induction cs generalizing cs2 buf with
  | nil =>
    cases cs2 with
    | nil => rfl
    | cons q cs2 => simp [sameFieldsButNames] at h
  | cons p cs ih =>
    cases cs2 with
    | nil => simp [sameFieldsButNames] at h
    | cons q cs2 =>
      obtain ⟨f, v⟩ := p
      obtain ⟨g, w⟩ := q
      simp only [sameFieldsButNames] at h
      obtain ⟨hn, rfl, hr⟩ := h
      have hv := sameFields_values cs cs2 hr
      simp only [typeOfFields]
      rw [deserializeFields, deserializeFields, (sameButName_decision f g v hn).1, hn.2.1]
      by_cases hc : CheckTag g v = false ∨ g.PkgPath ≠ ""
      · rw [if_pos hc, if_pos hc]
        have := ih cs2 hr buf
        revert this
        cases deserializeFields (typeOfFields cs) cs buf with
        | panic =>
          cases deserializeFields (typeOfFields cs2) cs2 buf with
          | panic => intro _; rfl
          | ret st e => obtain ⟨a, b⟩ := st; intro hh; simp [loopValues] at hh
        | ret st e =>
          obtain ⟨a, b⟩ := st
          cases deserializeFields (typeOfFields cs2) cs2 buf with
          | panic => intro hh; simp [loopValues] at hh
          | ret st2 e2 =>
            obtain ⟨a2, b2⟩ := st2
            intro hh
            simp only [loopValues, Run.ret.injEq, Prod.mk.injEq] at hh
            simp [loopValues, hh.1.1, hh.1.2, hh.2]
      · rw [if_neg hc, if_neg hc]
        cases deserializeField (typeOf v) v buf with
        | panic => rfl
        | ret st e =>
          obtain ⟨a, b⟩ := st
          simp only []
          cases (if isSliceOrMap (typeOf v) = true then none else e) with
          | some e1 => simp [loopValues, hv]
          | none =>
            simp only []
            have := ih cs2 hr b
            revert this
            cases deserializeFields (typeOfFields cs) cs b with
            | panic =>
              cases deserializeFields (typeOfFields cs2) cs2 b with
              | panic => intro _; rfl
              | ret st e => obtain ⟨a, b⟩ := st; intro hh; simp [loopValues] at hh
            | ret st e =>
              obtain ⟨a1, b1⟩ := st
              cases deserializeFields (typeOfFields cs2) cs2 b with
              | panic => intro hh; simp [loopValues] at hh
              | ret st2 e2 =>
                obtain ⟨a2, b2⟩ := st2
                intro hh
                simp only [loopValues, Run.ret.injEq, Prod.mk.injEq] at hh
                simp [loopValues, hh.1.1, hh.1.2, hh.2]

theorem fieldValues_deserialize (cs : List (StructField × Value)) (buf : Buf) :
    fieldValues (deserialize (.ptr (.struct cs)) buf)
      = loopValues (deserializeFields (typeOfFields cs) cs buf) := by
  simp only [deserialize]
  cases deserializeFields (typeOfFields cs) cs buf with
  | panic => rfl
  | ret st e => obtain ⟨a, b⟩ := st; rfl

theorem scenario_renamed_same : sameFieldsButNames scenarioFields scenarioRenamed := by
  simp only [sameFieldsButNames, scenarioFields, scenarioRenamed, sameButName, unconditional,
    exportedField, and_true, true_and]
  split_ands <;> decide

theorem isLeaf_cases (t : Ty) (h : isLeaf t = true) :
    t = .bool ∨ (∃ w, t = .int w) ∨ (∃ w, t = .uint w) ∨ t = .float64 ∨ t = .string ∨
      t = .other := by
  cases t <;> simp [isLeaf] at h
  · exact Or.inl rfl
  · exact Or.inr (Or.inl ⟨_, rfl⟩)
  · exact Or.inr (Or.inr (Or.inl ⟨_, rfl⟩))
  · exact Or.inr (Or.inr (Or.inr (Or.inl rfl)))
  · exact Or.inr (Or.inr (Or.inr (Or.inr (Or.inl rfl))))
  · exact Or.inr (Or.inr (Or.inr (Or.inr (Or.inr rfl))))

theorem isLeaf_not_container (t : Ty) (h : isLeaf t = true) : isSliceOrMap t = false := by
  cases t <;> simp [isLeaf] at h <;> rfl

theorem deserializeFields_append (fs1 fs2 : List (StructField × Ty))
    (cs1 cs2 c1 : List (StructField × Value)) (buf b : Buf)
    (h : deserializeFields fs1 cs1 buf = .ret (c1, b) none) :
    deserializeFields (fs1 ++ fs2) (cs1 ++ cs2) buf
      = prependFields c1 (deserializeFields fs2 cs2 b) := by
  induction fs1 generalizing cs1 c1 buf with
  | nil =>
    cases cs1 with
    | cons c cs1 => simp [deserializeFields] at h
    | nil =>
      simp only [deserializeFields, Run.ret.injEq, Prod.mk.injEq, and_true] at h
      obtain ⟨rfl, rfl⟩ := h
      simp only [List.nil_append]
      cases deserializeFields fs2 cs2 buf with
      | panic => rfl
      | ret st e => obtain ⟨a, b⟩ := st; simp [prependFields]
  | cons p fs1 ih =>
    cases cs1 with
    | nil => simp [deserializeFields] at h
    | cons c cs1 =>
      obtain ⟨f1, t1⟩ := p
      obtain ⟨cf1, v1⟩ := c
      simp only [List.cons_append]
      rw [deserializeFields] at h ⊢
      by_cases hc : CheckTag f1 v1 = false ∨ f1.PkgPath ≠ ""
      · rw [if_pos hc] at h ⊢
        cases hr : deserializeFields fs1 cs1 buf with
        | panic => rw [hr] at h; cases h
        | ret st e =>
          obtain ⟨a, b1⟩ := st
          rw [hr] at h
          simp only [Run.ret.injEq, Prod.mk.injEq] at h
          obtain ⟨⟨rfl, rfl⟩, rfl⟩ := h
          rw [ih cs1 a buf hr]
          cases deserializeFields fs2 cs2 b1 with
          | panic => rfl
          | ret st2 e2 => obtain ⟨a2, b2⟩ := st2; simp [prependFields]
      · rw [if_neg hc] at h ⊢
        cases hd : deserializeField t1 v1 buf with
        | panic => rw [hd] at h; cases h
        | ret st e =>
          obtain ⟨a, b1⟩ := st
          rw [hd] at h
          simp only [] at h ⊢
          cases he : (if isSliceOrMap t1 = true then none else e) with
          | some e1 => rw [he] at h; simp at h
          | none =>
            rw [he] at h
            simp only [] at h ⊢
            cases hr : deserializeFields fs1 cs1 b1 with
            | panic => rw [hr] at h; cases h
            | ret st2 e2 =>
              obtain ⟨a2, b2⟩ := st2
              rw [hr] at h
              simp only [Run.ret.injEq, Prod.mk.injEq] at h
              obtain ⟨⟨rfl, rfl⟩, rfl⟩ := h
              rw [ih cs1 a2 b1 hr]
              cases deserializeFields fs2 cs2 b2 with
              | panic => rfl
              | ret st3 e3 => obtain ⟨a3, b3⟩ := st3; simp [prependFields]

theorem boolSlice_decodes_empty_rest (n : Nat) (hn : n % 4294967296 = 0) (r : List Nat) :
    ∃ bytes : List Nat,
      Serialize plainTransform false (boolSliceStruct n) = .ret (le32 0 ++ bytes) none ∧
      Deserialize plainTransform false (le32 0 ++ bytes ++ r)
          (.ptr (zero (typeOf (boolSliceStruct n))))
        = .ret (.ptr (.struct [(exportedField "L" "l", .slice .bool false [])]), bytes ++ r)
            none := by
  obtain ⟨bytes, hs, _⟩ := rt_elems (manyFalse n) .bool (RTList_manyFalse _)
  have hu : unconditional (exportedField "L" "l").Tag := by
    simp only [unconditional, exportedField]; decide
  refine ⟨bytes, ?_, ?_⟩
  · simp only [Serialize, serialize, serializeResolved, boolSliceStruct]
    rw [WriteStruct_cons_included _ _ _ _ hu rfl]
    simp only [serializeField, manyFalse_length, hs, hn, List.nil_append, WriteStruct]
    rfl
  · simp only [Deserialize, boolSliceStruct, typeOf, typeOfFields, zero, zeroFields, deserialize,
      Bool.false_eq_true, if_false]
    rw [deserializeFields_cons_included _ _ _ _ _ _ _ hu rfl]
    simp only [deserializeField, List.append_assoc, readFull_le32]
    have h0 : (Uint32 (le32 0)).getD 0 = 0 := by decide
    simp only [h0, decodeElems, isSliceOrMap, if_true, deserializeFields]

theorem WriteStruct_returns_nil (cs : List (StructField × Value)) (buf : Buf) :
    WriteStruct cs buf = .panic ∨ ∃ b, WriteStruct cs buf = .ret b none := by
  induction cs generalizing buf with
  | nil => exact Or.inr ⟨buf, by simp [WriteStruct]⟩
  | cons p rest ih =>
    obtain ⟨f, v⟩ := p
    rw [WriteStruct]
    split
    · exact ih buf
    · split
      · exact ih buf
      · split
        · exact ih buf
        · split
          · exact ih buf
          · cases serializeField v buf with
            | panic => exact Or.inl rfl
            | ret b1 e => exact ih b1

theorem rt_struct_run (z : Transform) (cfs : List (StructField × Value))
    (fs : List (StructField × Ty)) (h : RT (.struct cfs) (.struct fs)) :
    ∃ bytes : List Nat,
      Serialize z false (.struct cfs) = .ret bytes none ∧
      Deserialize z false bytes (.ptr (zero (.struct fs)))
        = .ret (.ptr (norm (.struct cfs)), []) none := by
  obtain ⟨bytes, hs, hd⟩ := rt_value _ _ h
  have hw : WriteStruct cfs [] = .ret bytes none := by
    have := hs []
    simpa only [serializeField, List.nil_append] using this
  refine ⟨bytes, ?_, ?_⟩
  · simp only [Serialize, serialize, serializeResolved, hw]
    rfl
  · have hd1 := hd []
    simp only [zero, deserializeField, List.append_nil] at hd1
    simp only [Deserialize, zero, deserialize, typeOfFields_zeroFields, Bool.false_eq_true,
      if_false]
    revert hd1
    cases deserializeFields fs (zeroFields fs) bytes with
    | panic => intro hd1; cases hd1
    | ret st err =>
      obtain ⟨a, b⟩ := st
      intro hd1
      simp only [Run.ret.injEq, Prod.mk.injEq] at hd1
      obtain ⟨⟨h1, h2⟩, h3⟩ := hd1
      simp only [norm] at h1
      simp only [Value.struct.injEq] at h1
      subst h1 h2 h3
      simp only [norm]

theorem RT_typeOf_leaf (v : Value) (t : Ty) (h : RT v t)
    (hv : (∃ b, v = .bool b) ∨ (∃ w x, v = .int w x) ∨ (∃ w x, v = .uint w x) ∨
      (∃ x, v = .float64 x) ∨ (∃ s, v = .string s)) : typeOf v = t := by
  rcases hv with ⟨b, rfl⟩ | ⟨w, x, rfl⟩ | ⟨w, x, rfl⟩ | ⟨x, rfl⟩ | ⟨s, rfl⟩
  · cases t <;> simp only [RT] at h
    rfl
  · cases t with
    | int w2 => cases w <;> cases w2 <;> simp only [RT] at h; rfl
    | _ => cases w <;> simp only [RT] at h
  · cases t with
    | uint w2 => cases w <;> cases w2 <;> simp only [RT] at h; rfl
    | _ => cases w <;> simp only [RT] at h
  · cases t <;> simp only [RT] at h
    rfl
  · cases t <;> simp only [RT] at h
    rfl

mutual
theorem RT_typeOf : ∀ (v : Value) (t : Ty), RT v t → typeOf v = t
  | .bool b, t, h => RT_typeOf_leaf _ t h (Or.inl ⟨_, rfl⟩)
  | .int w v, t, h => RT_typeOf_leaf _ t h (Or.inr (Or.inl ⟨_, _, rfl⟩))
  | .uint w v, t, h => RT_typeOf_leaf _ t h (Or.inr (Or.inr (Or.inl ⟨_, _, rfl⟩)))
  | .float64 bits, t, h => RT_typeOf_leaf _ t h (Or.inr (Or.inr (Or.inr (Or.inl ⟨_, rfl⟩))))
  | .string s, t, h => RT_typeOf_leaf _ t h (Or.inr (Or.inr (Or.inr (Or.inr ⟨_, rfl⟩))))
  | .slice e1 n elems, t, h => by
    obtain ⟨ht, _, _⟩ := RT_slice_inv h
    rw [ht]; rfl
  | .map k1 e1 n entries, t, h => by
    obtain ⟨ht, _, _, _⟩ := RT_map_inv h
    rw [ht]; rfl
  | .nilPtr _, t, h => by
    cases t <;> simp only [RT] at h
  | .other _, t, h => by
    cases t <;> simp only [RT] at h
  | .struct cfs, t, h => by
    obtain ⟨fs, ht, hf⟩ := RT_struct_inv h
    rw [ht]
    simp only [typeOf]
    rw [RTFields_typeOf cfs fs hf]
  | .ptr (.struct cfs), t, h => by
    obtain ⟨fs, ht, hf⟩ := RT_ptr_struct_inv h
    rw [ht]
    simp only [typeOf]
    rw [RTFields_typeOf cfs fs hf]
  | .ptr (.bool _), t, h | .ptr (.int _ _), t, h | .ptr (.uint _ _), t, h
  | .ptr (.float64 _), t, h | .ptr (.string _), t, h | .ptr (.slice _ _ _), t, h
  | .ptr (.map _ _ _ _), t, h | .ptr (.nilPtr _), t, h | .ptr (.ptr _), t, h
  | .ptr (.other _), t, h => (RT_ptr_other h (fun _ hc => by cases hc)).elim
theorem RTFields_typeOf : ∀ (cfs : List (StructField × Value)) (fs : List (StructField × Ty)),
    RTFields cfs fs → typeOfFields cfs = fs
  | [], fs, h => by
    rw [RTFields_nil_inv h]
    rfl
  | (cf, v) :: rest, fs, h => by
    obtain ⟨t, fs1, hfs, _, _, hv, hrest⟩ := RTFields_cons_inv h
    rw [hfs]
    simp only [typeOfFields]
    rw [RT_typeOf v t hv, RTFields_typeOf rest fs1 hrest]
end

theorem sameFields_domain (cs cs2 : List (StructField × Value))
    (fs : List (StructField × Ty)) (h : sameFieldsButNames cs cs2) (hrt : RTFields cs fs) :
    RTFields cs2 (typeOfFields cs2) := by
  induction cs generalizing cs2 fs with
  | nil =>
    cases cs2 with
    | nil => simp only [typeOfFields, RTFields]
    | cons q cs2 => simp [sameFieldsButNames] at h
  | cons p cs ih =>
    cases cs2 with
    | nil => simp [sameFieldsButNames] at h
    | cons q cs2 =>
      obtain ⟨f, v⟩ := p
      obtain ⟨g, w⟩ := q
      simp only [sameFieldsButNames] at h
      obtain ⟨⟨_, hp, htag⟩, rfl, hr⟩ := h
      obtain ⟨t, fs1, _, hpk, hu, hv, hrest⟩ := RTFields_cons_inv hrt
      simp only [typeOfFields, RTFields, true_and]
      refine ⟨hp ▸ hpk, ?_, ?_, ih cs2 fs1 hr hrest⟩
      · rcases htag with htag | ⟨_, hu2⟩
        · exact htag ▸ hu
        · exact hu2
      · rw [RT_typeOf v t hv]
        exact hv

theorem normFields_values (cs : List (StructField × Value)) :
    (normFields cs).map Prod.snd = (cs.map Prod.snd).map norm := by
  induction cs with
  | nil => simp [normFields]
  | cons p cs ih =>
    obtain ⟨f, v⟩ := p
    simp [normFields, ih]

theorem boolSliceTagged_same (t1 t2 : String) (n : Nat) (h1 : unconditional t1)
    (h2 : unconditional t2) :
    sameFieldsButNames (boolSliceTagged t1 n) (boolSliceTagged t2 n) := by
  simp only [sameFieldsButNames, boolSliceTagged, sameButName, exportedField, and_true,
    true_and]
  exact Or.inr ⟨h1, h2⟩

theorem boolSliceTagged_decodes_empty (t1 t2 : String) (n : Nat) (h1 : unconditional t1)
    (h2 : unconditional t2) (hn : n % 4294967296 = 0) :
    ∃ bytes rest : List Nat,
      Serialize plainTransform false (.struct (boolSliceTagged t1 n)) = .ret bytes none ∧
      Deserialize plainTransform false bytes
          (.ptr (zero (typeOf (.struct (boolSliceTagged t2 n)))))
        = .ret (.ptr (.struct [(exportedField "L" t2, .slice .bool false [])]), rest) none := by
  obtain ⟨bytes, hs, _⟩ := rt_elems (manyFalse n) .bool (RTList_manyFalse _)
  refine ⟨le32 0 ++ bytes, bytes, ?_, ?_⟩
  · simp only [Serialize, serialize, serializeResolved, boolSliceTagged]
    rw [WriteStruct_cons_included _ _ _ _ h1 rfl]
    simp only [serializeField, manyFalse_length, hs, hn, List.nil_append, WriteStruct]
    rfl
  · simp only [Deserialize, boolSliceTagged, typeOf, typeOfFields, zero, zeroFields, deserialize,
      Bool.false_eq_true, if_false]
    rw [deserializeFields_cons_included _ _ _ _ _ _ _ h2 rfl]
    simp only [deserializeField, readFull_le32]
    have h0 : (Uint32 (le32 0)).getD 0 = 0 := by decide
    simp only [h0, decodeElems, isSliceOrMap, if_true, deserializeFields]

theorem scenario_in_domain :
    RT (.struct scenarioFields) (.struct (typeOfFields scenarioFields)) := by
  simp only [RT, RTFields, unconditional, exportedField, scenarioFields, typeOfFields, typeOf,
    List.length_cons, List.length_nil, true_and, and_true]
  split_ands <;> decide

theorem scenario_targets_same :
    sameFieldsButNames (zeroFields (typeOfFields scenarioFields))
      (zeroFields (typeOfFields scenarioRenamed)) := by
  simp only [sameFieldsButNames, scenarioFields, scenarioRenamed, sameButName, unconditional,
    exportedField, typeOfFields, typeOf, zeroFields, zero, and_true, true_and]
  split_ands <;> decide

/-! ### The claims -/

/-- C1, amended: for every struct value in the round-trip domain `RT` (int64,
uint64, float64 patterns, bool, strings of at most 65,533 bytes, slices and
maps of fewer than 2^32 elements, nested structs, non-nil pointers to structs,
every field exported with an unconditional directive) `Serialize` succeeds, on
the struct and on a pointer to it, and `Deserialize` of the bytes into a fresh
zero target of the same type succeeds, reads every byte, and leaves the value
itself with each nil slice or map replaced by an empty one. -/
theorem roundtrip_struct (z : Transform) (cfs : List (StructField × Value))
    (fs : List (StructField × Ty)) (h : RT (.struct cfs) (.struct fs)) :
    ∃ bytes : List Nat,
      Serialize z false (.struct cfs) = .ret bytes none ∧
      Serialize z false (.ptr (.struct cfs)) = .ret bytes none ∧
      Deserialize z false bytes (.ptr (zero (.struct fs)))
        = .ret (.ptr (norm (.struct cfs)), []) none := by
  obtain ⟨bytes, hs, hd⟩ := rt_value _ _ h
  have hw : WriteStruct cfs [] = .ret bytes none := by
    have := hs []
    simpa only [serializeField, List.nil_append] using this
  refine ⟨bytes, ?_, ?_, ?_⟩
  · simp only [Serialize, serialize, serializeResolved, hw]
    rfl
  · simp only [Serialize, serialize, serializeResolved, hw]
    rfl
  · have hd1 := hd []
    simp only [zero, deserializeField, List.append_nil] at hd1
    simp only [Deserialize, zero, deserialize, typeOfFields_zeroFields, Bool.false_eq_true,
      if_false]
    revert hd1
    cases deserializeFields fs (zeroFields fs) bytes with
    | panic => intro hd1; cases hd1
    | ret st err =>
      obtain ⟨a, b⟩ := st
      intro hd1
      simp only [Run.ret.injEq, Prod.mk.injEq] at hd1
      obtain ⟨⟨h1, h2⟩, h3⟩ := hd1
      simp only [norm] at h1
      simp only [Value.struct.injEq] at h1
      subst h1 h2 h3
      simp only [norm]

/-- C6, as stated, fails: in `{ A bool "a"; E struct{} "e"; B bool "b" }` the
field `E` is exported and carries the directive `e`, so it is included, yet
no byte is written for it: the output is that of `{ A bool "a"; B bool "b" }`.
The same holds for a field of a struct type whose only field has no
directive, whatever value it holds. -/
theorem included_field_writes_no_byte :
    resolvesToInclude (exportedField "E" "e") (.struct []) = true ∧
    resolvesToInclude (exportedField "In" "in") (.struct [(exportedField "X" "", .int .w64 5)])
      = true ∧
    Serialize plainTransform false (.struct emptyFieldExample) = .ret [1, 0, 1, 1, 0, 0] none ∧
    Serialize plainTransform false (.struct untaggedInnerExample)
      = .ret [1, 0, 1, 1, 0, 0] none ∧
    Serialize plainTransform false (.struct twoBools) = .ret [1, 0, 1, 1, 0, 0] none ∧
    WriteStruct [(exportedField "E" "e", .struct [])] [] = .ret [] none ∧
    WriteStruct [(exportedField "In" "in", .struct [(exportedField "X" "", .int .w64 5)])] []
      = .ret [] none :=
  ⟨by decide, by decide, rfl, rfl, rfl, rfl, rfl⟩

/-- C6, amended: `WriteStruct` passes a field to `WriteField`, which appends
the encoding of the field (an empty one for a struct none of whose fields is
included), exactly when the field is exported, its directive is neither empty
nor `-`, and it is not an `omitempty` field holding the zero value; the
fields are written in declared order and a returned error does not stop the
loop. -/
theorem writeStruct_field_resolution (fs : List (StructField × Value)) (buf : Buf) :
    WriteStruct fs buf =
      writeAll ((fs.filter (fun p => resolvesToInclude p.1 p.2)).map Prod.snd) buf :=
  WriteStruct_filter fs buf

/-- C8: a field whose directive is empty or `-` contributes nothing to the
output of `Serialize` (the output is that of the struct without the field, for
a struct and for a pointer to it), and whenever `Deserialize` returns, the
target still holds in that field the value it held before the call. -/
theorem exclusion (z : Transform) (compress : Bool) (pre post : List (StructField × Value))
    (f : StructField) (v : Value) (h : f.Tag = "" ∨ f.Tag = "-") :
    Serialize z compress (.struct (pre ++ (f, v) :: post))
      = Serialize z compress (.struct (pre ++ post)) ∧
    Serialize z compress (.ptr (.struct (pre ++ (f, v) :: post)))
      = Serialize z compress (.ptr (.struct (pre ++ post))) ∧
    (∀ data out rest err,
      Deserialize z compress data (.ptr (.struct (pre ++ (f, v) :: post)))
        = .ret (out, rest) err →
      ∃ cs, out = .ptr (.struct cs) ∧ cs[pre.length]? = some (f, v)) := by
  have hs := Serialize_struct_congr z compress _ _
    (fun buf => WriteStruct_skip pre post f v buf (resolves_excluded f v h))
  refine ⟨hs.1, hs.2, fun data out rest err hd => ?_⟩
  have hc : CheckTag f v = false ∨ f.PkgPath ≠ "" := by
    left; rcases h with h | h <;> simp [CheckTag, h]
  rw [Deserialize_skip z compress data pre post f v hc] at hd
  exact reinsert_index _ _ _ (pre ++ post) (by simp)
    (fun o r e he => Deserialize_shape z compress data _ o r e he) out rest err hd

/-- The witness of C8: a struct `{ A int64 "a"; Skip string "-"; B bool "b" }`. -/
theorem exclusion_witness :
    ((exportedField "Skip" "-").Tag = "" ∨ (exportedField "Skip" "-").Tag = "-") ∧
    Serialize plainTransform false
      (.struct ([(exportedField "A" "a", .int .w64 1)] ++
        (exportedField "Skip" "-", .string [1, 2]) :: [(exportedField "B" "b", .bool true)]))
      = Serialize plainTransform false
        (.struct ([(exportedField "A" "a", .int .w64 1)] ++ [(exportedField "B" "b", .bool true)])) :=
  ⟨Or.inr rfl, (exclusion plainTransform false [(exportedField "A" "a", .int .w64 1)]
    [(exportedField "B" "b", .bool true)] (exportedField "Skip" "-") (.string [1, 2])
    (Or.inr rfl)).1⟩

/-- C9: an `omitempty` field holding the zero value contributes nothing to the
output of `Serialize`; and decoding any input into a fresh zero target of the
struct's type gives what decoding into a fresh target of the type without that
field gives, with the field put back at its zero value: the field stays at
its default and the other fields are decoded as if it were not declared. -/
theorem omit_if_default (z : Transform) (compress : Bool)
    (pre post : List (StructField × Value)) (f : StructField) (v : Value)
    (hf : f.Tag = "omitempty") (hz : IsZero v = true) :
    Serialize z compress (.struct (pre ++ (f, v) :: post))
      = Serialize z compress (.struct (pre ++ post)) ∧
    Serialize z compress (.ptr (.struct (pre ++ (f, v) :: post)))
      = Serialize z compress (.ptr (.struct (pre ++ post))) ∧
    (∀ data,
      Deserialize z compress data (.ptr (zero (typeOf (.struct (pre ++ (f, v) :: post)))))
        = reinsert pre.length (f, zero (typeOf v))
            (Deserialize z compress data (.ptr (zero (typeOf (.struct (pre ++ post))))))) ∧
    (∀ data out rest err,
      Deserialize z compress data (.ptr (zero (typeOf (.struct (pre ++ (f, v) :: post)))))
        = .ret (out, rest) err →
      ∃ cs, out = .ptr (.struct cs) ∧ cs[pre.length]? = some (f, zero (typeOf v))) := by
  have hs := Serialize_struct_congr z compress _ _
    (fun buf => WriteStruct_skip pre post f v buf (resolves_omitted f v hf hz))
  have hc : CheckTag f (zero (typeOf v)) = false ∨ f.PkgPath ≠ "" := by
    left; simp [CheckTag, hf, IsZero_zero]
  have hlen : (zeroFields (typeOfFields pre)).length = pre.length := by
    rw [zeroFields_length, typeOfFields_length]
  have heq : ∀ data,
      Deserialize z compress data (.ptr (zero (typeOf (.struct (pre ++ (f, v) :: post)))))
        = reinsert pre.length (f, zero (typeOf v))
            (Deserialize z compress data (.ptr (zero (typeOf (.struct (pre ++ post)))))) := by
    intro data
    simp only [typeOf, zero, typeOfFields_append, typeOfFields, zeroFields_append, zeroFields]
    rw [Deserialize_skip z compress data _ _ f _ hc, hlen]
  refine ⟨hs.1, hs.2, heq, fun data out rest err hd => ?_⟩
  rw [heq data] at hd
  refine reinsert_index _ _ _ (zeroFields (typeOfFields (pre ++ post)))
    (by rw [zeroFields_length, typeOfFields_length]; simp) (fun o r e he => ?_) out rest err hd
  simp only [typeOf, zero] at he
  exact Deserialize_shape z compress data _ o r e he

/-- The witness of C9: a struct `{ A int64 "a"; Opt string "omitempty"; B bool "b" }`
with `Opt` empty. -/
theorem omit_if_default_witness :
    ((exportedField "Opt" "omitempty").Tag = "omitempty" ∧ IsZero (.string []) = true) ∧
    Serialize plainTransform false
      (.struct ([(exportedField "A" "a", .int .w64 1)] ++
        (exportedField "Opt" "omitempty", .string []) :: [(exportedField "B" "b", .bool true)]))
      = Serialize plainTransform false
        (.struct ([(exportedField "A" "a", .int .w64 1)] ++ [(exportedField "B" "b", .bool true)])) :=
  ⟨⟨rfl, rfl⟩, (omit_if_default plainTransform false [(exportedField "A" "a", .int .w64 1)]
    [(exportedField "B" "b", .bool true)] (exportedField "Opt" "omitempty") (.string [])
    rfl rfl).1⟩

/-- C7, at the failing input: `omitExample` holds the non-default value 5 in
its `omitempty` field `A`, `Serialize` writes it, and `Deserialize` into a
fresh target does not read it: it returns `nil` with `A` still 0, `B` set to
the 5 written for `A`, and the 10 bytes written for `B` left unread. -/
theorem omitempty_not_read_into_fresh_target :
    Serialize plainTransform false omitExample
      = .ret [8, 0, 5, 0, 0, 0, 0, 0, 0, 0, 8, 0, 7, 0, 0, 0, 0, 0, 0, 0] none ∧
    Deserialize plainTransform false [8, 0, 5, 0, 0, 0, 0, 0, 0, 0, 8, 0, 7, 0, 0, 0, 0, 0, 0, 0]
        (.ptr (zero (typeOf omitExample)))
      = .ret (.ptr omitExampleDecoded, [8, 0, 7, 0, 0, 0, 0, 0, 0, 0]) none ∧
    Deserialize plainTransform false [8, 0, 5, 0, 0, 0, 0, 0, 0, 0, 8, 0, 7, 0, 0, 0, 0, 0, 0, 0]
        (.ptr (zero (typeOf omitExample)))
      ≠ .ret (.ptr omitExample, []) none := by
  refine ⟨rfl, rfl, fun h => ?_⟩
  have h2 : Deserialize plainTransform false
      [8, 0, 5, 0, 0, 0, 0, 0, 0, 0, 8, 0, 7, 0, 0, 0, 0, 0, 0, 0]
      (.ptr (zero (typeOf omitExample)))
      = .ret (.ptr omitExampleDecoded, [8, 0, 7, 0, 0, 0, 0, 0, 0, 0]) none := rfl
  rw [h2] at h
  simp only [Run.ret.injEq, Prod.mk.injEq] at h
  exact absurd h.1.2 (by decide)

/-- The witness of C1 amended. -/
theorem roundtrip_struct_witness :
    RT (.struct sampleValue) (.struct sampleFields) ∧
    ∃ bytes : List Nat,
      Serialize plainTransform false (.struct sampleValue) = .ret bytes none ∧
      Serialize plainTransform false (.ptr (.struct sampleValue)) = .ret bytes none ∧
      Deserialize plainTransform false bytes (.ptr (zero (.struct sampleFields)))
        = .ret (.ptr (norm (.struct sampleValue)), []) none :=
  ⟨sample_in_domain, roundtrip_struct plainTransform sampleValue sampleFields sample_in_domain⟩

/-- C1, as stated, fails: the struct `{ L []bool }` with 2^32 elements is
built from the listed shapes only, yet no decode of its serialization into a
fresh target gives back a target equal to it (the `uint32` count written for
the slice is 0, so the decoded slice is empty). -/
theorem roundtrip_fails_at_2pow32_elements :
    RTList (manyFalse 4294967296) .bool ∧
    ¬ ∃ (bytes : List Nat) (y : Value) (rest : Buf),
      Serialize plainTransform false (boolSliceStruct 4294967296) = .ret bytes none ∧
      Deserialize plainTransform false bytes
          (.ptr (zero (typeOf (boolSliceStruct 4294967296))))
        = .ret (.ptr y, rest) none ∧
      norm y = norm (boolSliceStruct 4294967296) := by
  refine ⟨RTList_manyFalse _, ?_⟩
  rintro ⟨bytes, y, rest, hs, hd, hn⟩
  obtain ⟨bytes1, rest1, hs1, hd1⟩ := boolSlice_decodes_empty 4294967296 (Nat.mod_self _)
  rw [hs1] at hs
  simp only [Run.ret.injEq, and_true] at hs
  subst hs
  rw [hd1] at hd
  simp only [Run.ret.injEq, Prod.mk.injEq, Value.ptr.injEq, and_true] at hd
  rw [← hd.1] at hn
  have hl := norm_empty_slice_struct _ _ _ hn
  rw [manyFalse_length] at hl
  exact absurd hl (by decide)



/-- C2, as stated, fails: serializing the scenario struct does not give the
bytes that start with the prefix `[2,0]`, and those bytes do not decode back
to the triple (the decode returns an error). -/
theorem scenario_claimed_bytes_wrong :
    Serialize plainTransform false scenarioJohn ≠ .ret scenarioClaimedBytes none ∧
    Deserialize plainTransform false scenarioClaimedBytes (.ptr (zero (typeOf scenarioJohn)))
      ≠ .ret (.ptr scenarioJohn, []) none := by
  constructor
  · decide
  · intro h
    have h2 : Deserialize plainTransform false scenarioClaimedBytes
        (.ptr (zero (typeOf scenarioJohn))) =
        .ret (.ptr (.struct [(exportedField "Name" "name", .string [74, 111]),
           (exportedField "Siblings" "siblings", .int .w64 0),
           (exportedField "Spouse" "spouse", .bool false)]), [])
          (some (.wrapped "failed to deserialize field: "
            (.wrapped "failed to read field data: " .ErrUnexpectedEOF))) := rfl
    rw [h2] at h
    cases h

/-- C2, amended: the scenario struct serializes (no compression, directly or
through a pointer) to `[4,0] 'J','o','h','n' [8,0] 02,00,.. [1,0] 01`, and
deserializing those bytes into a fresh target gives back `("John", 2, true)`
with nothing left unread. -/
theorem scenario_bytes :
    Serialize plainTransform false scenarioJohn = .ret scenarioBytes none ∧
    Serialize plainTransform false (.ptr scenarioJohn) = .ret scenarioBytes none ∧
    Deserialize plainTransform false scenarioBytes (.ptr (zero (typeOf scenarioJohn)))
      = .ret (.ptr scenarioJohn, []) none :=
  ⟨rfl, rfl, rfl⟩

/-- C3, at the failing input: framing a payload of 65,534 bytes panics (the
frame size `2+size` wraps to 0 in `uint16` and `PutUint16` has no room), and so
does a payload of 65,535 bytes (frame size 1). -/
theorem getBytes_panics_near_max :
    GetBytes (List.replicate 65534 0) = .panic ∧
    GetBytes (List.replicate 65535 0) = .panic := by
  constructor
  · exact GetBytes_wrap _ (by simp only [List.length_replicate]; decide)
  · exact GetBytes_wrap _ (by simp only [List.length_replicate]; decide)

/-- C4, at the failing input: framing a payload of 65,536 bytes returns no
error; the frame is the two bytes `[0,0]`, a length prefix of 0 and none of
the payload. -/
theorem getBytes_truncates_65536 :
    GetBytes (List.replicate 65536 7) = .ret [0, 0] none := by
  rw [GetBytes_frame _ (by rw [List.length_replicate]; decide), List.length_replicate]
  rfl

/-- C5, at the failing input: an `int8`, `int16`, `int32`, `uint8`, `uint16`
or `uint32` field makes `serializeField` panic (`PutUint64` on a payload of
`usize < 8` bytes); nothing is written. -/
theorem serializeField_narrow_int_panics :
    serializeField (.int .w8 1) [] = .panic ∧
    serializeField (.int .w16 1) [] = .panic ∧
    serializeField (.int .w32 1) [] = .panic ∧
    serializeField (.uint .w8 1) [] = .panic ∧
    serializeField (.uint .w16 1) [] = .panic ∧
    serializeField (.uint .w32 1) [] = .panic :=
  ⟨rfl, rfl, rfl, rfl, rfl, rfl⟩

/-- C10, at the failing input: `Serialize` of a pointer to an `int64`, and of a
pointer to a pointer to a struct, returns a `nil` error and an empty byte slice. -/
theorem serialize_pointer_to_scalar_accepted :
    Serialize plainTransform false (.ptr (.int .w64 5)) = .ret [] none ∧
    Serialize plainTransform false (.ptr (.ptr scenarioJohn)) = .ret [] none :=
  ⟨rfl, rfl⟩

/-- C11: when the target is not a pointer to a struct, `Deserialize` returns an
error, the target is what it was, and the buffer holds the whole input (the
whole decompressed input when compression is on). -/
theorem decode_shape_check (z : Transform) (compress : Bool) (data : List Nat) (out : Value)
    (h : ∀ cfs, out ≠ .ptr (.struct cfs)) :
    ∃ (err : GoError) (rest : Buf),
      Deserialize z compress data out = .ret (out, rest) (some err) ∧
      (compress = false → rest = data) ∧
      (∀ d, compress = true → z.Decompress data = .ok d → rest = d) := by
  have key : ∀ buf, ∃ err, deserialize out buf = .ret (out, buf) (some err) := by
    intro buf
    cases out with
    | ptr v =>
      cases v with
      | struct cfs => exact absurd rfl (h cfs)
      | _ => exact ⟨_, rfl⟩
    | _ => exact ⟨_, rfl⟩
  cases compress with
  | false =>
    obtain ⟨err, he⟩ := key data
    exact ⟨err, data, by simpa [Deserialize] using he, fun _ => rfl, fun d hc => (by cases hc)⟩
  | true =>
    cases hd : z.Decompress data with
    | error e =>
      exact ⟨e, [], by simp [Deserialize, hd], fun hc => (by cases hc), fun d _ hc => (by cases hc)⟩
    | ok d =>
      obtain ⟨err, he⟩ := key d
      refine ⟨err, d, by simpa [Deserialize, hd] using he, fun hc => (by cases hc), fun d1 _ hc => ?_⟩
      cases hc; rfl

/-- The witness of C11: the target is an `int64`, not a pointer. -/
theorem decode_shape_check_witness :
    (∀ cfs, Value.int .w64 3 ≠ .ptr (.struct cfs)) ∧
    ∃ (err : GoError) (rest : Buf),
      Deserialize plainTransform false [1, 2, 3] (.int .w64 3)
        = .ret (.int .w64 3, rest) (some err) ∧
      (false = false → rest = [1, 2, 3]) ∧
      (∀ d, false = true → plainTransform.Decompress [1, 2, 3] = .ok d → rest = d) :=
  ⟨fun _ hc => (by cases hc),
    decode_shape_check plainTransform false [1, 2, 3] (.int .w64 3) (fun _ hc => (by cases hc))⟩

/-- C12, at the failing input: with the target `{ L []int64 "l" }` and an input
that ends before the count prefix (empty input), inside the count prefix's
elements (count 1, no element), or inside an element payload, `Deserialize`
returns `nil`; likewise for a map field whose first key is cut short. -/
theorem truncation_in_slice_field_not_reported :
    Deserialize plainTransform false [] (.ptr (zero (.struct intSliceFields)))
      = .ret (.ptr (zero (.struct intSliceFields)), []) none ∧
    Deserialize plainTransform false [1, 0, 0, 0] (.ptr (zero (.struct intSliceFields)))
      = .ret (.ptr (.struct [(exportedField "L" "l",
          .slice (.int .w64) false [.int .w64 0])]), []) none ∧
    Deserialize plainTransform false
        [2, 0, 0, 0, 8, 0, 1, 0, 0, 0, 0, 0, 0, 0, 8, 0, 2, 0, 0]
        (.ptr (zero (.struct intSliceFields)))
      = .ret (.ptr (.struct [(exportedField "L" "l",
          .slice (.int .w64) false [.int .w64 1, .int .w64 0])]), []) none ∧
    Deserialize plainTransform false [1, 0, 0, 0, 1, 0] (.ptr (zero (.struct stringMapFields)))
      = .ret (.ptr (.struct [(exportedField "M" "m",
          .map .string .string false [])]), []) none :=
  ⟨rfl, rfl, rfl, rfl⟩

/-- C13, at the failing input: `Serialize` of the slice `[]int64{1, 2}` and of
an empty slice panics, and `Serialize` of `[][]int64{{1, 2}, {3}}` gives the two
leaves of its element 0 and nothing else; as a struct field the slice
`[]int64{1, 2}` is written with its count. -/
theorem top_level_slice_framing :
    Serialize plainTransform false smallSlice = .panic ∧
    Serialize plainTransform false (.slice (.int .w64) false []) = .panic ∧
    Serialize plainTransform false (.slice (.slice (.int .w64)) false
        [smallSlice, .slice (.int .w64) false [.int .w64 3]])
      = .ret [8, 0, 1, 0, 0, 0, 0, 0, 0, 0, 8, 0, 2, 0, 0, 0, 0, 0, 0, 0] none ∧
    Serialize plainTransform false (.struct [(exportedField "L" "l", smallSlice)])
      = .ret [2, 0, 0, 0, 8, 0, 1, 0, 0, 0, 0, 0, 0, 0, 8, 0, 2, 0, 0, 0, 0, 0, 0, 0] none :=
  ⟨rfl, rfl, rfl, rfl⟩

/-- C14, at the failing input: `Serialize` of the map `{"a": "b"}` gives the key
and the value leaves without a count, while the same map as a struct field is
written with the count `[1,0,0,0]` in front. -/
theorem top_level_map_framing :
    Serialize plainTransform false smallMap = .ret [1, 0, 97, 1, 0, 98] none ∧
    Serialize plainTransform false (.struct [(exportedField "M" "m", smallMap)])
      = .ret [1, 0, 0, 0, 1, 0, 97, 1, 0, 98] none :=
  ⟨rfl, rfl⟩

/-- C15, at the failing input: the struct `{ P *int64 "p" }` with `P` pointing to
5 serializes to the leaf of 5, and `Deserialize` of those bytes into a fresh
target returns an error: the pointee is allocated, left at 0, and no byte is
read. -/
theorem pointer_to_scalar_not_decoded :
    Serialize plainTransform false ptrScalarStruct
      = .ret [8, 0, 5, 0, 0, 0, 0, 0, 0, 0] none ∧
    Deserialize plainTransform false [8, 0, 5, 0, 0, 0, 0, 0, 0, 0]
        (.ptr (zero (typeOf ptrScalarStruct)))
      = .ret (.ptr (.struct [(exportedField "P" "p", .ptr (.int .w64 0))]),
          [8, 0, 5, 0, 0, 0, 0, 0, 0, 0])
        (some (.wrapped "failed to deserialize field: " errNotStruct)) :=
  ⟨rfl, rfl⟩

/-- C16: if decompressing what `Compress` returns gives the bytes back, then for
every value that `Serialize` accepts without compression, `Serialize` with
compression succeeds too, and `Deserialize` of its output with compression on
is, for every target, the run of `Deserialize` of the plain output with
compression off: same error, same target, same unread rest. -/
theorem compression_transparent (z : Transform)
    (hz : ∀ b, ∃ c, z.Compress b = .ok c ∧ z.Decompress c = .ok b)
    (x : Value) (bytes : List Nat) (hx : Serialize z false x = .ret bytes none) :
    ∃ c, Serialize z true x = .ret c none ∧
      ∀ out, Deserialize z true c out = Deserialize z false bytes out := by
  obtain ⟨c, hc, hd⟩ := hz bytes
  have hs : serialize x [] = .ret bytes none := by
    simp only [Serialize] at hx
    cases hr : serialize x [] with
    | panic => rw [hr] at hx; cases hx
    | ret b e =>
      rw [hr] at hx
      cases e with
      | some err => simp at hx
      | none => simpa using hx
  refine ⟨c, ?_, fun out => ?_⟩
  · simp [Serialize, hs, hc]
  · simp [Deserialize, hd]

/-- The witness of C16: the transform that reverses the bytes, on the scenario
struct. -/
theorem compression_transparent_witness :
    (∀ b, ∃ c, reverseTransform.Compress b = .ok c ∧ reverseTransform.Decompress c = .ok b) ∧
    Serialize reverseTransform false scenarioJohn = .ret scenarioBytes none ∧
    ∃ c, Serialize reverseTransform true scenarioJohn = .ret c none ∧
      ∀ out, Deserialize reverseTransform true c out
        = Deserialize reverseTransform false scenarioBytes out :=
  ⟨fun b => ⟨b.reverse, rfl, by simp [reverseTransform]⟩, rfl,
    compression_transparent reverseTransform
      (fun b => ⟨b.reverse, rfl, by simp [reverseTransform]⟩) scenarioJohn scenarioBytes rfl⟩

/-- C17: the field loops of `WriteStruct` and of `deserialize` take the head
field first and decide on it with the same function `fieldDecision` of the
directive, the exported status and the zero-ness of the value at hand; on the
decode side that function is `CheckTag` followed by the exported check. -/
theorem same_resolver :
    (∀ f v rest buf, WriteStruct ((f, v) :: rest) buf =
      if fieldDecision f.Tag (decide (f.PkgPath = "")) (IsZero v) = true
      then writeThenRest v rest buf else WriteStruct rest buf) ∧
    (∀ f t fs cf cv cs buf, deserializeFields ((f, t) :: fs) ((cf, cv) :: cs) buf =
      if fieldDecision f.Tag (decide (f.PkgPath = "")) (IsZero cv) = true
      then decodeThenRest t cf cv fs cs buf else skipThenRest cf cv fs cs buf) ∧
    (∀ f v, (CheckTag f v && decide (f.PkgPath = ""))
      = fieldDecision f.Tag (decide (f.PkgPath = "")) (IsZero v)) := by
  have hck : ∀ f v, (CheckTag f v && decide (f.PkgPath = ""))
      = fieldDecision f.Tag (decide (f.PkgPath = "")) (IsZero v) := by
    intro f v
    by_cases h1 : f.Tag = "" <;> by_cases h2 : f.Tag = "-" <;>
      by_cases h3 : f.Tag = "omitempty" <;> by_cases h4 : f.PkgPath = "" <;>
      cases hz : IsZero v <;> simp_all [CheckTag, fieldDecision]
  refine ⟨fun f v rest buf => ?_, fun f t fs cf cv cs buf => ?_, hck⟩
  · rw [WriteStruct_filter, WriteStruct_filter]
    have hr : resolvesToInclude f v = fieldDecision f.Tag (decide (f.PkgPath = "")) (IsZero v) := by
      simp [resolvesToInclude, fieldDecision]
    rw [List.filter_cons]
    simp only [hr]
    cases hd : fieldDecision f.Tag (decide (f.PkgPath = "")) (IsZero v) with
    | true =>
      simp only [if_true, List.map_cons, writeAll, writeThenRest]
      cases WriteField v buf with
      | panic => rfl
      | ret b e => simp only []; rw [WriteStruct_filter]
    | false => simp
  · rw [deserializeFields]
    have hc := hck f cv
    cases hd : fieldDecision f.Tag (decide (f.PkgPath = "")) (IsZero cv) with
    | true =>
      rw [hd] at hc
      have : ¬(CheckTag f cv = false ∨ f.PkgPath ≠ "") := by
        simp only [Bool.and_eq_true, decide_eq_true_eq] at hc
        simp [hc.1, hc.2]
      rw [if_neg this, if_pos rfl]
      rfl
    | false =>
      rw [hd] at hc
      have : CheckTag f cv = false ∨ f.PkgPath ≠ "" := by
        simp only [Bool.and_eq_false_imp, decide_eq_false_iff_not] at hc
        by_cases hk : CheckTag f cv = true
        · exact Or.inr (hc hk)
        · exact Or.inl (by simpa using hk)
      rw [if_pos this, if_neg (by simp)]
      rfl

/-- C18, as stated, fails: the shapes `{ L []bool "l" }` and `{ L []bool "ell" }`
differ only in the name of an unconditional directive, yet the bytes
serialized with the first for a slice of 2^32 elements do not deserialize
with the second to the same field values (the `uint32` count written for the
slice is 0, so the decoded slice is empty). -/
theorem renamed_decode_fails_at_2pow32_elements :
    sameFieldsButNames (boolSliceTagged "l" 4294967296) (boolSliceTagged "ell" 4294967296) ∧
    RTList (manyFalse 4294967296) .bool ∧
    ¬ ∃ (bytes : List Nat) (y : Value) (rest : Buf),
      Serialize plainTransform false (.struct (boolSliceTagged "l" 4294967296))
        = .ret bytes none ∧
      Deserialize plainTransform false bytes
          (.ptr (zero (typeOf (.struct (boolSliceTagged "ell" 4294967296)))))
        = .ret (.ptr y, rest) none ∧
      norm y = norm (.struct (boolSliceTagged "ell" 4294967296)) := by
  have h1 : unconditional "l" := by simp only [unconditional]; decide
  have h2 : unconditional "ell" := by simp only [unconditional]; decide
  refine ⟨boolSliceTagged_same _ _ _ h1 h2, RTList_manyFalse _, ?_⟩
  rintro ⟨bytes, y, rest, hs, hd, hn⟩
  obtain ⟨bytes1, rest1, hs1, hd1⟩ :=
    boolSliceTagged_decodes_empty "l" "ell" 4294967296 h1 h2 (Nat.mod_self _)
  rw [hs1] at hs
  simp only [Run.ret.injEq, and_true] at hs
  subst hs
  rw [hd1] at hd
  simp only [Run.ret.injEq, Prod.mk.injEq, Value.ptr.injEq, and_true] at hd
  rw [← hd.1] at hn
  have hl := norm_empty_slice_struct _ _ _ hn
  rw [manyFalse_length] at hl
  exact absurd hl (by decide)

/-- C18, amended: for two struct shapes with the same fields in the same order
that differ only in the names of unconditional directives, `Serialize` gives
the same result on equal field values; for every input `Deserialize` into
targets of the two shapes that hold equal values gives the same error, the
same field values and the same unread rest; and for field values in the
round-trip domain `RT` the bytes serialized with one shape deserialize into a
fresh zero target of the other shape without error, with every byte read, to
the serialized field values (each nil slice or map replaced by an empty
one). -/
theorem directive_names_are_documentation (z : Transform) (compress : Bool)
    (xs xs2 ts ts2 : List (StructField × Value))
    (hx : sameFieldsButNames xs xs2) (ht : sameFieldsButNames ts ts2) :
    Serialize z compress (.struct xs) = Serialize z compress (.struct xs2) ∧
    Serialize z compress (.ptr (.struct xs)) = Serialize z compress (.ptr (.struct xs2)) ∧
    (∀ data, fieldValues (Deserialize z compress data (.ptr (.struct ts)))
      = fieldValues (Deserialize z compress data (.ptr (.struct ts2)))) ∧
    (∀ fs, RT (.struct xs) (.struct fs) →
      ∃ bytes : List Nat,
        Serialize z false (.struct xs) = .ret bytes none ∧
        Deserialize z false bytes (.ptr (zero (typeOf (.struct xs2))))
          = .ret (.ptr (norm (.struct xs2)), []) none ∧
        fieldValues (Deserialize z false bytes (.ptr (zero (typeOf (.struct xs2)))))
          = .ret ((xs.map Prod.snd).map norm, []) none) := by
  have hs := Serialize_struct_congr z compress xs xs2 (sameFields_write xs xs2 hx)
  refine ⟨hs.1, hs.2, fun data => ?_, fun fs hrt => ?_⟩
  · have hv := sameFields_values ts ts2 ht
    unfold Deserialize
    cases compress with
    | false =>
      simp only [Bool.false_eq_true, if_false, fieldValues_deserialize]
      exact sameFields_decode ts ts2 ht data
    | true =>
      simp only [if_true]
      cases z.Decompress data with
      | error e => simp [fieldValues, hv]
      | ok d =>
        simp only [fieldValues_deserialize]
        exact sameFields_decode ts ts2 ht d
  · have hrt2 : RT (.struct xs2) (.struct (typeOfFields xs2)) := by
      simp only [RT] at hrt ⊢
      exact sameFields_domain xs xs2 fs hx hrt
    obtain ⟨bytes, hs2, hd2⟩ := rt_struct_run z xs2 (typeOfFields xs2) hrt2
    have hs1 := (Serialize_struct_congr z false xs xs2 (sameFields_write xs xs2 hx)).1
    refine ⟨bytes, hs1.trans hs2, ?_, ?_⟩
    · simpa only [typeOf] using hd2
    · simp only [typeOf]
      rw [hd2]
      simp only [norm, fieldValues, normFields_values, sameFields_values xs xs2 hx]

/-- The witness of C18 amended: the scenario struct and its renaming to the
directives `n`, `s`, `p`; the bytes of the first decode into a fresh target of
the second to `("John", 2, true)`. -/
theorem directive_names_witness :
    (sameFieldsButNames scenarioFields scenarioRenamed ∧
      sameFieldsButNames (zeroFields (typeOfFields scenarioFields))
        (zeroFields (typeOfFields scenarioRenamed)) ∧
      RT (.struct scenarioFields) (.struct (typeOfFields scenarioFields))) ∧
    Serialize plainTransform false (.struct scenarioFields)
      = Serialize plainTransform false (.struct scenarioRenamed) ∧
    ∃ bytes : List Nat,
      Serialize plainTransform false (.struct scenarioFields) = .ret bytes none ∧
      Deserialize plainTransform false bytes (.ptr (zero (typeOf (.struct scenarioRenamed))))
        = .ret (.ptr (norm (.struct scenarioRenamed)), []) none ∧
      fieldValues (Deserialize plainTransform false bytes
          (.ptr (zero (typeOf (.struct scenarioRenamed)))))
        = .ret ((scenarioFields.map Prod.snd).map norm, []) none :=
  ⟨⟨scenario_renamed_same, scenario_targets_same, scenario_in_domain⟩,
    (directive_names_are_documentation plainTransform false scenarioFields scenarioRenamed
      (zeroFields (typeOfFields scenarioFields)) (zeroFields (typeOfFields scenarioRenamed))
      scenario_renamed_same scenario_targets_same).1,
    (directive_names_are_documentation plainTransform false scenarioFields scenarioRenamed
      (zeroFields (typeOfFields scenarioFields)) (zeroFields (typeOfFields scenarioRenamed))
      scenario_renamed_same scenario_targets_same).2.2.2 _ scenario_in_domain⟩

/-- C19: the output of `Serialize` for a struct (or a pointer to it) is the
concatenation, in declared order, of the encodings of the fields `WriteStruct`
includes, nothing before, between or after them (a panic when one of them
panics); and the encoding of a slice of `n < 2^32` elements is the 4 bytes of
`n`, little-endian, followed by the encodings of its elements in order. -/
theorem wire_layout (z : Transform) (cs : List (StructField × Value))
    (e : Ty) (isNil : Bool) (elems : List Value) (hn : elems.length < 4294967296) :
    Serialize z false (.struct cs) = runOf (concatEncodings (includedValues cs)) ∧
    Serialize z false (.ptr (.struct cs)) = runOf (concatEncodings (includedValues cs)) ∧
    encoding (.slice e isNil elems)
      = (concatEncodings elems).map (fun bytes => le32 elems.length ++ bytes) := by
  have hw : WriteStruct cs [] = runOf (concatEncodings (includedValues cs)) := by
    rw [WriteStruct_filter, writeAll_concat]
    unfold includedValues
    cases concatEncodings (List.map Prod.snd
      (List.filter (fun p => resolvesToInclude p.1 p.2) cs)) with
    | none => rfl
    | some b => simp [runOf]
  refine ⟨?_, ?_, ?_⟩
  · simp only [Serialize, serialize, serializeResolved, hw]
    cases concatEncodings (includedValues cs) <;> simp [runOf]
  · simp only [Serialize, serialize, serializeResolved, hw]
    cases concatEncodings (includedValues cs) <;> simp [runOf]
  · simp only [encoding, WriteField, List.nil_append, serializeElems_concat,
      Nat.mod_eq_of_lt hn]
    cases concatEncodings elems <;> simp

/-- The witness of C19: the slice `[]int64{1, 2}` next to the scenario struct. -/
theorem wire_layout_witness :
    [Value.int .w64 1, Value.int .w64 2].length < 4294967296 ∧
    encoding (.slice (.int .w64) false [Value.int .w64 1, Value.int .w64 2])
      = (concatEncodings [Value.int .w64 1, Value.int .w64 2]).map
          (fun bytes => le32 [Value.int .w64 1, Value.int .w64 2].length ++ bytes) :=
  ⟨by decide, (wire_layout plainTransform [] (.int .w64) false
    [Value.int .w64 1, Value.int .w64 2] (by decide)).2.2⟩

/-- C20: for every int64 `v` and every uint64 `u`, `serializeField` appends
`[8,0]` and the 8 little-endian bytes of `v mod 2^64` (of `u`), and
`deserializeField` on those bytes, whatever follows them and whatever the
target of the same type holds, returns `v` (`u`) and leaves what follows. -/
theorem int64_leaves (v : Int) (u : Nat)
    (hv1 : -9223372036854775808 ≤ v) (hv2 : v < 9223372036854775808)
    (hu : u < 18446744073709551616) (buf r : Buf) (cur : Value) :
    toUint64 v = (v % 18446744073709551616).toNat ∧
    serializeField (.int .w64 v) buf = .ret (buf ++ ([8, 0] ++ le64 (toUint64 v))) none ∧
    deserializeField (.int .w64) cur ([8, 0] ++ le64 (toUint64 v) ++ r)
      = .ret (.int .w64 v, r) none ∧
    serializeField (.uint .w64 u) buf = .ret (buf ++ ([8, 0] ++ le64 u)) none ∧
    deserializeField (.uint .w64) cur ([8, 0] ++ le64 u ++ r)
      = .ret (.uint .w64 u, r) none := by
  have hf : ∀ x, frame (le64 x) = [8, 0] ++ le64 x := fun x => by
    simp [frame, le16, le64_length]
  have hum : u % 18446744073709551616 = u := Nat.mod_eq_of_lt hu
  refine ⟨rfl, ?_, ?_, ?_, ?_⟩
  · rw [← hf]; exact (rt_int64 v hv1 hv2).1 buf
  · rw [← hf, deserializeField_leaf _ _ _ (Or.inr (Or.inl ⟨_, rfl⟩)), decodeLeaf,
      readLeaf_frame _ _ (by simp [le64_length])]
    simp only [setLeaf, Uint64_le64]
    rw [truncInt_toInt64 v hv1 hv2]
  · have := (rt_uint64 u hu).1 buf
    rw [hum] at this
    rw [← hf]; exact this
  · rw [← hf, deserializeField_leaf _ _ _ (Or.inr (Or.inr (Or.inl ⟨_, rfl⟩))), decodeLeaf,
      readLeaf_frame _ _ (by simp [le64_length])]
    simp only [setLeaf, Uint64_le64, truncUint, Width.bits, Width.size]
    have : u % 18446744073709551616 % 2 ^ (8 * 8) = u := by norm_num; omega
    rw [this]

/-- The witness of C20: the minimum int64 and the maximum uint64. -/
theorem int64_leaves_witness :
    ((-9223372036854775808 : Int) ≤ -9223372036854775808 ∧
      (-9223372036854775808 : Int) < 9223372036854775808 ∧
      18446744073709551615 < 18446744073709551616) ∧
    serializeField (.int .w64 (-9223372036854775808)) []
      = .ret ([] ++ ([8, 0] ++ le64 (toUint64 (-9223372036854775808)))) none ∧
    deserializeField (.int .w64) (.int .w64 7)
        ([8, 0] ++ le64 (toUint64 (-9223372036854775808)) ++ [9])
      = .ret (.int .w64 (-9223372036854775808), [9]) none :=
  ⟨⟨by decide, by decide, by decide⟩,
    (int64_leaves (-9223372036854775808) 18446744073709551615 (by decide) (by decide)
      (by decide) [] [9] (.int .w64 7)).2.1,
    (int64_leaves (-9223372036854775808) 18446744073709551615 (by decide) (by decide)
      (by decide) [] [9] (.int .w64 7)).2.2.1⟩

/-- C21: when the field loop has decoded the fields before an included leaf
field without error and the read of that field's leaf frame fails (the length
prefix or the payload is cut short), `Deserialize` returns the wrapped error,
and the target keeps the decoded earlier fields, the field itself and every
field declared after it as they were before the call. -/
theorem failing_leaf_aborts (z : Transform) (data : List Nat)
    (pre post pre1 : List (StructField × Value)) (f : StructField) (cv : Value)
    (buf1 buf2 : Buf) (e : GoError)
    (hleaf : isLeaf (typeOf cv) = true)
    (hinc : CheckTag f cv = true) (hexp : f.PkgPath = "")
    (hpre : deserializeFields (typeOfFields pre) pre data = .ret (pre1, buf1) none)
    (hread : readLeaf buf1 = (.error e, buf2)) :
    Deserialize z false data (.ptr (.struct (pre ++ (f, cv) :: post)))
      = .ret (.ptr (.struct (pre1 ++ (f, cv) :: post)), buf2)
          (some (.wrapped "failed to deserialize field: " e)) := by
  have hc : ¬(CheckTag f cv = false ∨ f.PkgPath ≠ "") := by simp [hinc, hexp]
  simp only [Deserialize, Bool.false_eq_true, if_false, deserialize, typeOfFields_append,
    typeOfFields]
  rw [deserializeFields_append _ _ _ _ _ _ _ hpre, deserializeFields, if_neg hc,
    deserializeField_leaf _ _ _ (isLeaf_cases _ hleaf), decodeLeaf, hread]
  simp [isLeaf_not_container _ hleaf, prependFields]

/-- The witness of C21: the scenario target with an input that ends inside the
payload of `Siblings`. -/
theorem failing_leaf_aborts_witness :
    (isLeaf (typeOf (Value.int .w64 0)) = true ∧
      CheckTag (exportedField "Siblings" "siblings") (Value.int .w64 0) = true ∧
      (exportedField "Siblings" "siblings").PkgPath = "" ∧
      deserializeFields (typeOfFields [(exportedField "Name" "name", Value.string [])])
          [(exportedField "Name" "name", Value.string [])]
          [4, 0, 74, 111, 104, 110, 8, 0, 2, 0]
        = .ret ([(exportedField "Name" "name", Value.string [74, 111, 104, 110])],
            [8, 0, 2, 0]) none ∧
      readLeaf [8, 0, 2, 0]
        = (.error (.wrapped "failed to read field data: " .ErrUnexpectedEOF), [])) ∧
    Deserialize plainTransform false [4, 0, 74, 111, 104, 110, 8, 0, 2, 0]
        (.ptr (.struct ([(exportedField "Name" "name", Value.string [])] ++
          (exportedField "Siblings" "siblings", Value.int .w64 0) ::
            [(exportedField "Spouse" "spouse", Value.bool false)])))
      = .ret (.ptr (.struct ([(exportedField "Name" "name", Value.string [74, 111, 104, 110])] ++
          (exportedField "Siblings" "siblings", Value.int .w64 0) ::
            [(exportedField "Spouse" "spouse", Value.bool false)])), [])
          (some (.wrapped "failed to deserialize field: "
            (.wrapped "failed to read field data: " .ErrUnexpectedEOF))) :=
  ⟨⟨rfl, rfl, rfl, rfl, rfl⟩,
    failing_leaf_aborts plainTransform [4, 0, 74, 111, 104, 110, 8, 0, 2, 0]
      [(exportedField "Name" "name", Value.string [])]
      [(exportedField "Spouse" "spouse", Value.bool false)]
      [(exportedField "Name" "name", Value.string [74, 111, 104, 110])]
      (exportedField "Siblings" "siblings") (Value.int .w64 0) [8, 0, 2, 0] []
      (.wrapped "failed to read field data: " .ErrUnexpectedEOF) rfl rfl rfl rfl rfl⟩

/-- C22, as stated, fails: for the struct `{ L []bool }` with 2^32 elements,
followed by the byte 7, no decode of the serialization into a fresh target
gives a target equal to it with exactly `[7]` left unread (the decoded slice is
empty and the bytes of all the elements are left unread as well). -/
theorem consumes_exactly_fails_at_2pow32_elements :
    RTList (manyFalse 4294967296) .bool ∧
    ¬ ∃ (bytes : List Nat) (y : Value),
      Serialize plainTransform false (boolSliceStruct 4294967296) = .ret bytes none ∧
      Deserialize plainTransform false (bytes ++ [7])
          (.ptr (zero (typeOf (boolSliceStruct 4294967296))))
        = .ret (.ptr y, [7]) none ∧
      norm y = norm (boolSliceStruct 4294967296) := by
  refine ⟨RTList_manyFalse _, ?_⟩
  rintro ⟨bytes, y, hs, hd, hn⟩
  obtain ⟨b, hs1, hd1⟩ := boolSlice_decodes_empty_rest 4294967296 (Nat.mod_self _) [7]
  rw [hs1] at hs
  simp only [Run.ret.injEq, and_true] at hs
  subst hs
  rw [hd1] at hd
  simp only [Run.ret.injEq, Prod.mk.injEq, Value.ptr.injEq, and_true] at hd
  rw [← hd.1] at hn
  have hl := norm_empty_slice_struct _ _ _ hn
  rw [manyFalse_length] at hl
  exact absurd hl (by decide)

/-- C22, amended: for every struct value in the round-trip domain `RT` (slices
and maps of fewer than 2^32 elements) and every byte sequence `r`, `Serialize`
succeeds and `Deserialize` of its output followed by `r` into a fresh zero
target succeeds, leaves the value (each nil slice or map replaced by an empty
one) and leaves exactly `r` unread. -/
theorem decoder_consumes_exactly (z : Transform) (cfs : List (StructField × Value))
    (fs : List (StructField × Ty)) (r : List Nat) (h : RT (.struct cfs) (.struct fs)) :
    ∃ bytes : List Nat,
      Serialize z false (.struct cfs) = .ret bytes none ∧
      Deserialize z false (bytes ++ r) (.ptr (zero (.struct fs)))
        = .ret (.ptr (norm (.struct cfs)), r) none := by
  obtain ⟨bytes, hs, hd⟩ := rt_value _ _ h
  have hw : WriteStruct cfs [] = .ret bytes none := by
    have := hs []
    simpa only [serializeField, List.nil_append] using this
  refine ⟨bytes, ?_, ?_⟩
  · simp only [Serialize, serialize, serializeResolved, hw]
    rfl
  · have hd1 := hd r
    simp only [zero, deserializeField] at hd1
    simp only [Deserialize, zero, deserialize, typeOfFields_zeroFields, Bool.false_eq_true,
      if_false]
    revert hd1
    cases deserializeFields fs (zeroFields fs) (bytes ++ r) with
    | panic => intro hd1; cases hd1
    | ret st err =>
      obtain ⟨a, b⟩ := st
      intro hd1
      simp only [Run.ret.injEq, Prod.mk.injEq] at hd1
      obtain ⟨⟨h1, h2⟩, h3⟩ := hd1
      simp only [norm] at h1
      simp only [Value.struct.injEq] at h1
      subst h1 h2 h3
      simp only [norm]

/-- The witness of C22 amended: the sample struct followed by three bytes. -/
theorem decoder_consumes_exactly_witness :
    RT (.struct sampleValue) (.struct sampleFields) ∧
    ∃ bytes : List Nat,
      Serialize plainTransform false (.struct sampleValue) = .ret bytes none ∧
      Deserialize plainTransform false (bytes ++ [1, 2, 3]) (.ptr (zero (.struct sampleFields)))
        = .ret (.ptr (norm (.struct sampleValue)), [1, 2, 3]) none :=
  ⟨sample_in_domain,
    decoder_consumes_exactly plainTransform sampleValue sampleFields [1, 2, 3] sample_in_domain⟩

/-- C23: `WriteStruct` either panics or returns `nil`, whatever `WriteField`
returned for the fields, and so `Serialize` without compression of a struct or
of a pointer to a struct either panics (the walk does not complete) or returns
its bytes with a `nil` error. -/
theorem struct_encoding_never_errors (z : Transform) (cs : List (StructField × Value)) :
    (∀ buf, WriteStruct cs buf = .panic ∨ ∃ b, WriteStruct cs buf = .ret b none) ∧
    (Serialize z false (.struct cs) = .panic ∨
      ∃ bytes, Serialize z false (.struct cs) = .ret bytes none) ∧
    (Serialize z false (.ptr (.struct cs)) = .panic ∨
      ∃ bytes, Serialize z false (.ptr (.struct cs)) = .ret bytes none) := by
  have hw := WriteStruct_returns_nil cs []
  refine ⟨WriteStruct_returns_nil cs, ?_, ?_⟩
  · rcases hw with hw | ⟨b, hw⟩
    · exact Or.inl (by simp [Serialize, serialize, serializeResolved, hw])
    · exact Or.inr ⟨b, by simp [Serialize, serialize, serializeResolved, hw]⟩
  · rcases hw with hw | ⟨b, hw⟩
    · exact Or.inl (by simp [Serialize, serialize, serializeResolved, hw])
    · exact Or.inr ⟨b, by simp [Serialize, serialize, serializeResolved, hw]⟩

/-- C24: for a payload `p` of at most 65,533 bytes `GetBytes` returns the frame
made of the 2-byte little-endian length and `p`, and reading a leaf from that
frame followed by `r` returns `p` and leaves `r`; for a payload `q` of 65,534
or 65,535 bytes the frame size `2+len` in `uint16` is 0 or 1 and `GetBytes`
panics instead of returning a frame. -/
theorem leaf_frame_roundtrip (p q r : List Nat) (hp : p.length ≤ 65533)
    (hq : q.length = 65534 ∨ q.length = 65535) :
    GetBytes p = .ret (le16 p.length ++ p) none ∧
    readLeaf (le16 p.length ++ p ++ r) = (.ok p, r) ∧
    (2 + q.length % 65536) % 65536 = q.length - 65534 ∧
    GetBytes q = .panic := by
  have hm : p.length % 65536 = p.length := Nat.mod_eq_of_lt (by omega)
  refine ⟨?_, ?_, ?_, ?_⟩
  · rw [GetBytes_frame p (by omega), hm, List.take_length]
  · exact readLeaf_frame p r (by omega)
  · omega
  · exact GetBytes_wrap q (by omega)

/-- The witness of C24: a 3-byte payload and a payload of 65,534 bytes. -/
theorem leaf_frame_roundtrip_witness :
    (([1, 2, 3] : List Nat).length ≤ 65533 ∧
      ((List.replicate 65534 0 : List Nat).length = 65534 ∨
        (List.replicate 65534 0 : List Nat).length = 65535)) ∧
    GetBytes [1, 2, 3] = .ret (le16 ([1, 2, 3] : List Nat).length ++ [1, 2, 3]) none ∧
    readLeaf (le16 ([1, 2, 3] : List Nat).length ++ [1, 2, 3] ++ [9]) = (.ok [1, 2, 3], [9]) ∧
    (2 + (List.replicate 65534 0 : List Nat).length % 65536) % 65536
      = (List.replicate 65534 0 : List Nat).length - 65534 ∧
    GetBytes (List.replicate 65534 0) = .panic :=
  ⟨⟨by decide, Or.inl (List.length_replicate _ _)⟩,
    leaf_frame_roundtrip [1, 2, 3] (List.replicate 65534 0) [9] (by decide)
      (Or.inl (List.length_replicate _ _))⟩

end TinySerializer
